import Mathlib

/-!
Verification of the devzey-blog-platform search core (`lib/posts.ts`).

This file gives a shallow embedding of the post store and its search /
recommendation functions, translated from the TypeScript source:

* the record shape `Post` and the filter options `PostFilters`;
* the store primitives `getPosts`, `getPostById`, `validateRelatedPosts`;
* the relevance ranking engine `searchPosts` with its per-token scoring;
* the related-content recommender `getRelatedPosts`;
* the mutating operations `createPost`, `updatePost`, `publishScheduledPosts`,
  `bulkUpdatePosts`, `bulkPublishPosts`.

Modelling conventions:

* Timestamps are `Int` millisecond values (`Date.getTime()`); `Date | null`
  fields become `Option Int`.  `Date.now()` is passed in as a `now` parameter.
* Scores are `ℚ`, since the source mixes integer points with the float
  divisions `viewCount / 100` and `ms / 86400000`.
* JavaScript strings are Lean `String`s; the string operations the source
  uses (`toLowerCase`, `trim`, `split(/\s+/)`, `includes`, `startsWith`)
  are implemented below over `List Char` in the ASCII fragment (the
  inputs appearing in this development are ASCII).
* `Array.prototype.sort` is stable (ES2019); a stable sort with a total
  preorder comparator is extensionally unique, so it is modelled by the
  structural stable insertion sort `sSort`.
* `new RegExp(term, "g")` together with `String.match` is an external
  runtime facility.  It is modelled by a parameter
  `rx : String → Option (String → Nat)`: `rx term = none` means the
  `RegExp` constructor throws a `SyntaxError` for `term`, and
  `rx term = some cnt` means it compiles and `cnt s` is the number of
  matches of the pattern in `s` (`(s.match(re) || []).length`).
  `litRegex` below instantiates the fragment needed on concrete inputs.
* Fallible computations return `Option`: `none` models a thrown exception
  (`searchPosts`) or a `null` result (`updatePost`, `getPostById`).
* The purely-carried fields `featuredImage`, `seoTitle`, `seoDescription`,
  `canonicalUrl`, `noIndex`, `structuredData`, `socialTitle`,
  `socialDescription`, `socialImage`, `customFields` are omitted from the
  record: the embedded functions never read them and every update merely
  copies them through, so they do not affect any stated property.
-/

namespace Blog

/-! ## JavaScript string primitives (ASCII fragment) -/

/-- Whitespace characters matched by the JavaScript `\s` class and removed by
`String.trim`, restricted to the ASCII range (tab, line feed, vertical tab,
form feed, carriage return, space). -/
def isJsWs (c : Char) : Bool :=
  c = ' ' || c = '\t' || c = '\n' || c = '\x0b' || c = '\x0c' || c = '\r'

/-- ASCII case folding of one character, the fragment of
`String.prototype.toLowerCase` exercised here. -/
def lowerChar (c : Char) : Char :=
  if 'A' ≤ c ∧ c ≤ 'Z' then Char.ofNat (c.toNat + 32) else c

/-- Model of `s.toLowerCase()` (ASCII fragment). -/
def jsLower (s : String) : String := ⟨s.data.map lowerChar⟩

/-- Model of `s.trim()`: strip leading and trailing whitespace. -/
def jsTrim (s : String) : String :=
  ⟨(((s.data.dropWhile isJsWs).reverse.dropWhile isJsWs).reverse)⟩

/-- Model of `s.split(/\s+/)` on a character list: pieces between maximal
whitespace runs, keeping the empty leading piece produced by leading
whitespace and the empty trailing piece produced by trailing whitespace,
and with `[[]]` for the empty string, exactly as in JavaScript. -/
def splitWsKE : List Char → List (List Char)
  | [] => [[]]
  | c :: cs =>
    if isJsWs c then [] :: splitWsKE (cs.dropWhile isJsWs)
    else
      match splitWsKE cs with
      | [] => [[c]]
      | p :: ps => (c :: p) :: ps
termination_by cs => cs.length
decreasing_by
  · simp only [List.length_cons]
    have := (List.dropWhile_sublist (l := cs) isJsWs).length_le
    omega
  · simp

/-- Model of
`query.toLowerCase().trim().split(/\s+/).filter(term => term.length > 0)`,
the query tokenizer of `searchPosts`. -/
def jsTokenize (q : String) : List String :=
  ((splitWsKE (jsTrim (jsLower q)).data).filter (· ≠ [])).map (fun cs => ⟨cs⟩)

/-- Model of `hay.includes needle` on character lists: some (possibly empty)
contiguous occurrence of `needle` inside `hay`. -/
def containsSub (hay needle : List Char) : Bool :=
  match hay with
  | [] => needle = []
  | _ :: cs => needle.isPrefixOf hay || containsSub cs needle

/-- Model of `hay.includes(needle)` on strings. -/
def containsS (hay needle : String) : Bool := containsSub hay.data needle.data

/-- Model of `hay.startsWith(needle)` on strings. -/
def startsWithS (hay needle : String) : Bool := needle.data.isPrefixOf hay.data

/-- Number of non-overlapping, leftmost-first occurrences of the (non-empty)
literal pattern `needle` in `hay`; this is the global match count
`(hay.match(new RegExp(needle, "g")) || []).length` for a pattern without
regular-expression metacharacters. -/
def countOccur (needle hay : List Char) : Nat :=
  match hay with
  | [] => 0
  | c :: cs =>
    if needle ≠ [] ∧ needle.isPrefixOf (c :: cs)
    then 1 + countOccur needle (cs.drop (needle.length - 1))
    else countOccur needle cs
termination_by hay.length
decreasing_by
  · simp only [List.length_cons]
    have := List.length_drop (needle.length - 1) cs
    omega
  · simp

/-- Characters with a special meaning in JavaScript regular expressions.
A pattern free of these is matched literally by `new RegExp`. -/
def regexMeta (c : Char) : Bool :=
  c = '\\' || c = '^' || c = '$' || c = '.' || c = '|' || c = '?' ||
  c = '*' || c = '+' || c = '(' || c = ')' || c = '[' || c = ']' ||
  c = '\x7b' || c = '\x7d'

/-- The fragment of the `new RegExp(term, "g")` / `String.match` collaborator
needed at the concrete inputs of this file: a pattern without
regular-expression metacharacters compiles to the literal non-overlapping
occurrence counter.  Patterns containing metacharacters are outside the
fragment (`none`); the only such pattern evaluated below is `"("`, for which
`new RegExp` does throw a `SyntaxError` in the source's runtime. -/
def litRegex (term : String) : Option (String → Nat) :=
  if term.data.all (fun c => ¬ regexMeta c)
  then some (fun s => countOccur term.data s.data)
  else none

/-! ## Stable sort

`Array.prototype.sort` with a consistent comparator is a stable sort, and a
stable sort for a total preorder is extensionally unique; we model it with a
stable insertion sort.  `sIns le a l` inserts `a` after every element of `l`
that must (or may, by a tie) precede it. -/

def sIns {α : Type} (le : α → α → Prop) [DecidableRel le] (a : α) :
    List α → List α
  | [] => [a]
  | b :: bs => if le b a ∧ ¬ le a b then b :: sIns le a bs else a :: b :: bs

def sSort {α : Type} (le : α → α → Prop) [DecidableRel le] : List α → List α
  | [] => []
  | a :: as => sIns le a (sSort le as)

theorem sIns_perm {α : Type} (le : α → α → Prop) [DecidableRel le] (a : α)
    (l : List α) : (sIns le a l).Perm (a :: l) := by
  induction l with
  | nil => simp [sIns]
  | cons b bs ih =>
    by_cases h : le b a ∧ ¬ le a b
    · simpa [sIns, h] using (ih.cons b).trans (List.Perm.swap a b bs)
    · simp [sIns, h]

theorem sSort_perm {α : Type} (le : α → α → Prop) [DecidableRel le]
    (l : List α) : (sSort le l).Perm l := by
  induction l with
  | nil => simp [sSort]
  | cons a as ih => exact (sIns_perm le a (sSort le as)).trans (ih.cons a)

theorem mem_sSort {α : Type} {le : α → α → Prop} [DecidableRel le]
    {l : List α} {x : α} : x ∈ sSort le l ↔ x ∈ l :=
  (sSort_perm le l).mem_iff

theorem pairwise_sIns {α : Type} {le : α → α → Prop} [DecidableRel le]
    (trans : ∀ a b c, le a b → le b c → le a c)
    (total : ∀ a b, le a b ∨ le b a) (a : α) {l : List α}
    (h : l.Pairwise le) : (sIns le a l).Pairwise le := by
  induction l with
  | nil => simp [sIns]
  | cons b bs ih =>
    rcases List.pairwise_cons.mp h with ⟨hb, hbs⟩
    by_cases hc : le b a ∧ ¬ le a b
    · rw [sIns, if_pos hc]
      refine List.pairwise_cons.mpr ⟨?_, ih hbs⟩
      intro x hx
      have hx' : x ∈ a :: bs := (sIns_perm le a bs).mem_iff.mp hx
      rcases List.mem_cons.mp hx' with rfl | hx'
      · exact hc.1
      · exact hb x hx'
    · rw [sIns, if_neg hc]
      have hab : le a b := by
        by_cases h' : le a b
        · exact h'
        · rcases total a b with h'' | h''
          · exact h''
          · exact absurd ⟨h'', h'⟩ hc
      refine List.pairwise_cons.mpr ⟨?_, h⟩
      intro x hx
      rcases List.mem_cons.mp hx with rfl | hx'
      · exact hab
      · exact trans a b x hab (hb x hx')

theorem pairwise_sSort {α : Type} {le : α → α → Prop} [DecidableRel le]
    (trans : ∀ a b c, le a b → le b c → le a c)
    (total : ∀ a b, le a b ∨ le b a) (l : List α) :
    (sSort le l).Pairwise le := by
  induction l with
  | nil => simp [sSort]
  | cons a as ih => exact pairwise_sIns trans total a ih

/-! ## Data model (`types/post.ts`) -/

/-- The `status` field of a post: `'draft' | 'published' | 'archived'`. -/
inductive Status where
  | draft
  | published
  | archived
deriving DecidableEq, Repr

/-- The sortable field set of `PostFilters.sortBy`. -/
inductive SortBy where
  | createdAt
  | updatedAt
  | publishedAt
  | viewCount
  | likeCount
deriving DecidableEq, Repr

/-- The `sortOrder` filter: `'asc' | 'desc'`. -/
inductive SortOrder where
  | asc
  | desc
deriving DecidableEq, Repr

/-- A content record (`Post` in `types/post.ts`).  Timestamps are
millisecond values; nullable timestamps are `Option Int`.  The purely
carried optional fields listed in the header are omitted. -/
structure Post where
  id : String
  title : String
  slug : String
  content : String
  excerpt : String
  author : String
  published : Bool
  publishedAt : Option Int
  createdAt : Int
  updatedAt : Int
  tags : List String
  category : String
  readingTime : Nat
  status : Status
  scheduledPublishAt : Option Int
  lastViewedAt : Option Int
  viewCount : Nat
  likeCount : Nat
  commentCount : Nat
  wordCount : Nat
  series : Option String
  seriesOrder : Option Int
  relatedPosts : List String
deriving DecidableEq, Repr

/-- The filter options of `getPosts` (`PostFilters` in `types/post.ts`).
`limit` and `offset` are natural numbers: the callers build them from
non-negative counts. -/
structure PostFilters where
  published : Option Bool := none
  author : Option String := none
  category : Option String := none
  tag : Option String := none
  limit : Option Nat := none
  offset : Option Nat := none
  sortBy : Option SortBy := none
  sortOrder : Option SortOrder := none
  status : Option Status := none
  series : Option String := none
  dateFrom : Option Int := none
  dateTo : Option Int := none
  minViews : Option Nat := none
  search : Option String := none
  excludeIds : Option (List String) := none
deriving DecidableEq, Repr

/-- Truthiness of an optional JavaScript string: `undefined` and `""` are
falsy.  Several filter fields are guarded by `if (filters.field)`. -/
def strTruthy : Option String → Bool
  | none => false
  | some s => s ≠ ""

/-! ## The store collaborator: `getPosts` and friends -/

/-- One conditional filter pass of `getPosts`:
`if (guard) { posts = posts.filter(pred); }`. -/
def condFilter (b : Bool) (q : Post → Prop) [DecidablePred q] (l : List Post) :
    List Post :=
  if b then l.filter (fun p => decide (q p)) else l

/-- The `filters.series` predicate of `getPosts`:
`post.series?.toLowerCase().includes(...)`, false for a record without a
series (optional chaining yields `undefined`, which is falsy). -/
def seriesPred (f : PostFilters) (p : Post) : Prop :=
  match p.series with
  | some s => containsS (jsLower s) (jsLower (f.series.getD ""))
  | none => False

instance (f : PostFilters) : DecidablePred (seriesPred f) := by
  intro p
  unfold seriesPred
  cases p.series <;> exact inferInstance

/-- The full-text `filters.search` predicate of `getPosts` (substring match
against any of the six text fields, all lowercased). -/
def searchPred (f : PostFilters) (p : Post) : Prop :=
  containsS (jsLower p.title) (jsLower (f.search.getD "")) ||
  containsS (jsLower p.content) (jsLower (f.search.getD "")) ||
  containsS (jsLower p.excerpt) (jsLower (f.search.getD "")) ||
  p.tags.any (fun t => containsS (jsLower t) (jsLower (f.search.getD ""))) ||
  containsS (jsLower p.category) (jsLower (f.search.getD "")) ||
  containsS (jsLower p.author) (jsLower (f.search.getD ""))

instance (f : PostFilters) : DecidablePred (searchPred f) := by
  intro p
  unfold searchPred
  exact inferInstance

/-- The filtering part of `getPosts`: the eleven conditional `filter`
passes, applied innermost-first in source order.  String filters guarded
by `if (filters.x)` are skipped for an absent or empty string;
`published`, `minViews` are guarded by `!== undefined`, and `status`,
`dateFrom`, `dateTo`, `excludeIds` by truthiness of a value that is truthy
exactly when present (a status enum string, a `Date`, a non-empty array).
Each predicate reads its filter value with `getD`; the `condFilter` guard
guarantees the value is present whenever the predicate runs, so the
defaults are never observable. -/
def applyFilters (posts : List Post) (f : PostFilters) : List Post :=
  condFilter (strTruthy f.search) (searchPred f)
  (condFilter (!(f.excludeIds.getD []).isEmpty)
    (fun p => ¬ (f.excludeIds.getD []).contains p.id)
  (condFilter f.minViews.isSome (fun p => f.minViews.getD 0 ≤ p.viewCount)
  (condFilter f.dateTo.isSome (fun p => p.createdAt ≤ f.dateTo.getD 0)
  (condFilter f.dateFrom.isSome (fun p => f.dateFrom.getD 0 ≤ p.createdAt)
  (condFilter (strTruthy f.series) (seriesPred f)
  (condFilter f.status.isSome (fun p => p.status = f.status.getD Status.draft)
  (condFilter (strTruthy f.tag)
    (fun p => p.tags.any (fun t => containsS (jsLower t) (jsLower (f.tag.getD ""))))
  (condFilter (strTruthy f.category)
    (fun p => jsLower p.category = jsLower (f.category.getD ""))
  (condFilter (strTruthy f.author)
    (fun p => containsS (jsLower p.author) (jsLower (f.author.getD "")))
  (condFilter f.published.isSome (fun p => p.published = f.published.getD false)
    posts))))))))))

/-- The numeric sort key used by the `getPosts` comparator for a sort
field: `publishedAt` falls back to `createdAt` for unpublished posts
(`a.publishedAt || a.createdAt`; a `Date` object is always truthy). -/
def sortKey (sb : SortBy) (p : Post) : Int :=
  match sb with
  | .createdAt => p.createdAt
  | .updatedAt => p.updatedAt
  | .publishedAt => p.publishedAt.getD p.createdAt
  | .viewCount => p.viewCount
  | .likeCount => p.likeCount

/-- The `getPosts` comparator as a preorder: `a` may precede `b`.  The
source comparator returns `aValue - bValue` for `'asc'` and
`bValue - aValue` for `'desc'`. -/
def getPostsLe (sb : SortBy) (so : SortOrder) (a b : Post) : Prop :=
  match so with
  | .asc => sortKey sb a ≤ sortKey sb b
  | .desc => sortKey sb b ≤ sortKey sb a

instance (sb : SortBy) (so : SortOrder) : DecidableRel (getPostsLe sb so) := by
  intro a b
  unfold getPostsLe
  cases so <;> exact inferInstance

/-- The sorting step of `getPosts`: sort by `filters.sortBy || 'createdAt'`
in direction `filters.sortOrder || 'desc'` (the enum strings are truthy,
so `||` is the same as defaulting an absent field). -/
def sortPosts (posts : List Post) (f : PostFilters) : List Post :=
  sSort (getPostsLe (f.sortBy.getD .createdAt) (f.sortOrder.getD .desc)) posts

/-- The pagination step of `getPosts`:
`posts.slice(offset, offset + limit)` with `offset = filters.offset || 0`
and `limit = filters.limit || posts.length`; a limit of `0` is falsy in
JavaScript, so it also means "all". -/
def paginate (posts : List Post) (f : PostFilters) : List Post :=
  let offset := f.offset.getD 0
  let limit := match f.limit with
    | some l => if l = 0 then posts.length else l
    | none => posts.length
  (posts.drop offset).take limit

/-- Model of `getPosts(filters)` over an explicit store contents `posts`
(the source reads the list from its JSON file): filter, sort, paginate. -/
def getPosts (posts : List Post) (f : PostFilters) : List Post :=
  paginate (sortPosts (applyFilters posts f) f) f

/-- Model of `getPostById`: first post with the given id, else `null`. -/
def getPostById (posts : List Post) (id : String) : Option Post :=
  posts.find? (fun p => p.id = id)

/-- Model of `validateRelatedPosts`: split a list of post ids into those
that exist in the store and those that do not, preserving order. -/
def validateRelatedPosts (posts : List Post) (postIds : List String) :
    List String × List String :=
  (postIds.filter (fun id => posts.any (fun p => p.id = id)),
   postIds.filter (fun id => ¬ posts.any (fun p => p.id = id)))

/-! ## Relevance scoring (`searchPosts`) -/

/-- A record's effective date: `publishedAt` if set, else `createdAt`
(`post.publishedAt ? … : …` and `a.post.publishedAt || a.post.createdAt`;
a `Date` object is always truthy). -/
def effDate (p : Post) : Int := p.publishedAt.getD p.createdAt

/-- Title signal for one token: 100 for an exact lowercased match, else 50
for a prefix, else 30 for a substring, else 0 (an `else if` chain). -/
def titleScore (term titleLower : String) : ℚ :=
  if titleLower = term then 100
  else if startsWithS titleLower term then 50
  else if containsS titleLower term then 30
  else 0

/-- Tag signal for one token: 25 per lowercased tag that equals or contains
the token. -/
def tagScore (term : String) (tagsLower : List String) : ℚ :=
  ((tagsLower.filter (fun tag => tag = term || containsS tag term)).length : ℚ) * 25

/-- Category signal for one token: 20 exact, else 10 substring, else 0. -/
def categoryScore (term categoryLower : String) : ℚ :=
  if categoryLower = term then 20
  else if containsS categoryLower term then 10
  else 0

/-- Author signal for one token: 15 if the lowercased author contains it. -/
def authorScore (term authorLower : String) : ℚ :=
  if containsS authorLower term then 15 else 0

/-- Excerpt signal for one token: if the lowercased excerpt contains the
token, 10 points plus 2 per global-match occurrence
(`score += 10; score += matches * 2`); compiling the token as a regular
expression may throw (`none`). -/
def excerptScore (rx : String → Option (String → Nat)) (term excerptLower : String) :
    Option ℚ :=
  if containsS excerptLower term then
    match rx term with
    | some cnt => some (10 + (cnt excerptLower : ℚ) * 2)
    | none => none
  else some 0

/-- Content signal for one token: if the lowercased content contains the
token, 5 points plus the occurrence count capped at 10
(`score += 5; score += Math.min(matches, 10)`). -/
def contentScore (rx : String → Option (String → Nat)) (term contentLower : String) :
    Option ℚ :=
  if containsS contentLower term then
    match rx term with
    | some cnt => some (5 + (min (cnt contentLower) 10 : ℚ))
    | none => none
  else some 0

/-- Score contributed by a single query token to a record: the sum of the
six per-field signals, or a thrown `SyntaxError` (`none`). -/
def termScore (rx : String → Option (String → Nat)) (term : String) (p : Post) :
    Option ℚ :=
  match excerptScore rx term (jsLower p.excerpt),
        contentScore rx term (jsLower p.content) with
  | some e, some c =>
    some (titleScore term (jsLower p.title)
      + tagScore term (p.tags.map jsLower)
      + categoryScore term (jsLower p.category)
      + authorScore term (jsLower p.author)
      + e + c)
  | _, _ => none

/-- Accumulated text score over all query tokens (`searchTerms.forEach`),
with a thrown exception propagating out. -/
def textScore (rx : String → Option (String → Nat)) (p : Post) :
    List String → Option ℚ
  | [] => some 0
  | t :: ts =>
    match termScore rx t p, textScore rx p ts with
    | some a, some b => some (a + b)
    | _, _ => none

/-- Recency bonus: +5 when the effective date is within 30 days of `now`
(`(Date.now() - date.getTime()) / (1000*60*60*24) < 30`), applied once per
record, unconditionally on the text score. -/
def recencyBonus (now : Int) (p : Post) : ℚ :=
  if ((now - effDate p : Int) : ℚ) / 86400000 < 30 then 5 else 0

/-- Popularity bonus: `if (post.viewCount > 100) score += min(viewCount / 100, 5)`,
applied once per record. -/
def popularityBonus (p : Post) : ℚ :=
  if 100 < p.viewCount then min ((p.viewCount : ℚ) / 100) 5 else 0

/-- Total relevance score of one record for a token list: text score plus
the two per-record bonuses. -/
def scorePost (rx : String → Option (String → Nat)) (now : Int)
    (terms : List String) (p : Post) : Option ℚ :=
  match textScore rx p terms with
  | some s => some (s + recencyBonus now p + popularityBonus p)
  | none => none

/-- The `posts.map(post => ({post, score}))` pass; an exception thrown while
scoring any record aborts the whole batch. -/
def scoreAll (rx : String → Option (String → Nat)) (now : Int)
    (terms : List String) : List Post → Option (List (Post × ℚ))
  | [] => some []
  | p :: ps =>
    match scorePost rx now terms p, scoreAll rx now terms ps with
    | some s, some rest => some ((p, s) :: rest)
    | _, _ => none

/-- The `searchPosts` comparator on scored records: higher score first,
ties broken by later effective date
(`b.score - a.score`, then `bDate - aDate`). -/
def searchLe (a b : Post × ℚ) : Prop :=
  b.2 < a.2 ∨ (a.2 = b.2 ∧ effDate b.1 ≤ effDate a.1)

instance : DecidableRel searchLe := by
  intro a b
  unfold searchLe
  exact inferInstance

/-- The ranking tail of `searchPosts`: drop zero-score records, sort by the
score/date comparator, and project the records back out. -/
def rankScored (scoredPosts : List (Post × ℚ)) : List Post :=
  (sSort searchLe (scoredPosts.filter (fun x => 0 < x.2))).map Prod.fst

/-- The final truncation of `searchPosts`:
`if (filters.limit) return relevantPosts.slice(0, filters.limit)` — a limit
of `0` is falsy and truncates nothing. -/
def applyLimit (filters : PostFilters) (l : List Post) : List Post :=
  match filters.limit with
  | some n => if n ≠ 0 then l.take n else l
  | none => l

/-- Model of `searchPosts(query, filters)` over a store `posts`.  Empty and
whitespace-only queries short-circuit to `getPosts(filters)`; otherwise the
non-search filters (pagination included) are applied through `getPosts`,
each record is scored per token, zero-score records are dropped, the rest
are sorted by score then effective date, and a truthy `filters.limit`
truncates the result.  `none` models a thrown exception. -/
def searchPosts (rx : String → Option (String → Nat)) (now : Int)
    (posts : List Post) (query : String) (filters : PostFilters) :
    Option (List Post) :=
  if jsTrim query = "" then some (getPosts posts filters)
  else
    let searchTerms := jsTokenize query
    if searchTerms = [] then some (getPosts posts filters)
    else
      let page := getPosts posts { filters with search := none }
      match scoreAll rx now searchTerms page with
      | none => none
      | some scoredPosts => some (applyLimit filters (rankScored scoredPosts))

/-! ## Related-content recommender (`getRelatedPosts`) -/

/-- The effective-date *number* used by the recommender's recency check:
`relatedPost.publishedAt?.getTime() || relatedPost.createdAt.getTime()`.
Unlike `effDate`, a `publishedAt` equal to the epoch (0) is falsy and falls
back to `createdAt`. -/
def effDateNum (p : Post) : Int :=
  match p.publishedAt with
  | some t => if t = 0 then p.createdAt else t
  | none => p.createdAt

/-- Similarity score of a candidate `rp` against the reference record `p`:
same category 30, 20 per shared (exact) tag, same author 10, same truthy
series 25, recency 5, popularity up to 10. -/
def relScore (now : Int) (p rp : Post) : ℚ :=
  (if rp.category = p.category then 30 else 0)
  + ((rp.tags.filter (fun tag => p.tags.contains tag)).length : ℚ) * 20
  + (if rp.author = p.author then 10 else 0)
  + (if rp.series = p.series ∧ strTruthy rp.series then 25 else 0)
  + (if ((now - effDateNum rp : Int) : ℚ) / 86400000 < 30 then 5 else 0)
  + (if 100 < rp.viewCount then min ((rp.viewCount : ℚ) / 100) 10 else 0)

/-- The recommender's comparator: descending similarity score
(`(a, b) => b.score - a.score`). -/
def relLe (a b : Post × ℚ) : Prop := b.2 ≤ a.2

instance : DecidableRel relLe := by
  intro a b
  unfold relLe
  exact inferInstance

/-- The automatic-similarity phase of `getRelatedPosts`: fetch up to
`3 × limit` published non-self candidates, score them against the
reference record, sort by score descending and keep the first `limit`. -/
def autoRelated (now : Int) (posts : List Post) (post : Post)
    (postId : String) (limit : Nat) : List Post :=
  let relatedPosts := getPosts posts
    { published := some true, excludeIds := some [postId], limit := some (limit * 3) }
  let scoredPosts := relatedPosts.map (fun rp => (rp, relScore now post rp))
  ((sSort relLe scoredPosts).take limit).map Prod.fst

/-- Model of `getRelatedPosts(postId, limit)` over a store `posts`.  If the
reference record is missing the result is `[]`.  If it has curated
`relatedPosts` ids, the ones that exist are intersected with the published
non-self candidate set; when that fills `limit` it is returned, otherwise
the source falls through to the automatic phase with the *remaining* count
`limit - filtered.length` — and returns only the automatic slice. -/
def getRelatedPosts (now : Int) (posts : List Post) (postId : String)
    (limit : Nat) : List Post :=
  match getPostById posts postId with
  | none => []
  | some post =>
    if post.relatedPosts ≠ [] then
      let valid := (validateRelatedPosts posts post.relatedPosts).1
      if valid ≠ [] then
        let manualRelatedPosts := getPosts posts
          { published := some true, excludeIds := some [postId] }
        let filtered :=
          (manualRelatedPosts.filter (fun p => valid.contains p.id)).take limit
        if limit ≤ filtered.length then filtered
        else autoRelated now posts post postId (limit - filtered.length)
      else autoRelated now posts post postId limit
    else autoRelated now posts post postId limit

/-! ## Mutating operations (`createPost`, `updatePost`, scheduling, bulk) -/

/-- Collapse every maximal run of characters satisfying `p` into the single
character `r` (the shape of `replace(/X+/g, "r")`). -/
def collapseRuns (p : Char → Bool) (r : Char) : List Char → List Char
  | [] => []
  | c :: cs =>
    if p c then r :: collapseRuns p r (cs.dropWhile p)
    else c :: collapseRuns p r cs
termination_by cs => cs.length
decreasing_by
  · simp only [List.length_cons]
    have := (List.dropWhile_sublist (l := cs) p).length_le
    omega
  · simp

/-- Model of `generateSlug`: lowercase, drop characters outside
`[\w\s-]`, turn whitespace runs into hyphens, collapse hyphen runs,
strip leading/trailing hyphens (the final `trim()` is a no-op because no
whitespace remains). -/
def generateSlug (title : String) : String :=
  let kept := (jsLower title).data.filter
    (fun c => c.isAlphanum || c = '_' || isJsWs c || c = '-')
  let hyphened := collapseRuns isJsWs '-' kept
  let collapsed := collapseRuns (fun c => c = '-') '-' hyphened
  ⟨((collapsed.dropWhile (fun c => c = '-')).reverse.dropWhile (fun c => c = '-')).reverse⟩

/-- Whether `slug` is already used by a post other than `excludeId`
(`posts.some(post => post.slug === slug && post.id !== excludeId)`; with no
`excludeId`, `post.id !== undefined` always holds). -/
def slugTaken (posts : List Post) (slug : String) (excludeId : Option String) : Bool :=
  posts.any (fun post => post.slug = slug &&
    (match excludeId with
     | some e => post.id ≠ e
     | none => true))

/-- The `while` loop of `ensureUniqueSlug`, with explicit fuel: the
candidate slugs `baseSlug, baseSlug-1, baseSlug-2, …` are pairwise
distinct and at most `posts.length` slugs are taken, so `posts.length + 1`
iterations always find a free one and the fuel-exhausted branch is
unreachable. -/
def ensureUniqueSlugGo (posts : List Post) (baseSlug : String)
    (excludeId : Option String) : String → Nat → Nat → String
  | slug, _, 0 => slug
  | slug, counter, fuel + 1 =>
    if slugTaken posts slug excludeId then
      ensureUniqueSlugGo posts baseSlug excludeId
        (baseSlug ++ "-" ++ toString counter) (counter + 1) fuel
    else slug

/-- Model of `ensureUniqueSlug(baseSlug, excludeId)` over the store. -/
def ensureUniqueSlug (posts : List Post) (baseSlug : String)
    (excludeId : Option String) : String :=
  ensureUniqueSlugGo posts baseSlug excludeId baseSlug 1 (posts.length + 1)

/-- Model of `calculateReadingTime`:
`Math.ceil(content.split(/\s+/).length / 200)`. -/
def calculateReadingTime (content : String) : Nat :=
  ((splitWsKE content.data).length + 199) / 200

/-- Model of `calculateWordCount`:
`content.split(/\s+/).filter(word => word.length > 0).length`. -/
def calculateWordCount (content : String) : Nat :=
  ((splitWsKE content.data).filter (· ≠ [])).length

/-- The request body of `createPost` (`CreatePostRequest`), restricted to
the fields kept in `Post`.  `scheduledPublishAt` is `Date | null |
undefined` in the source; only its truthiness is read here, so `null` and
`undefined` collapse into `none`. -/
structure CreatePostRequest where
  title : String
  content : String
  excerpt : String
  author : String
  published : Option Bool := none
  tags : Option (List String) := none
  category : Option String := none
  status : Option Status := none
  scheduledPublishAt : Option Int := none
  series : Option String := none
  seriesOrder : Option Int := none
  relatedPosts : Option (List String) := none
deriving Repr

/-- The request body of `updatePost` (`UpdatePostRequest`).
`scheduledPublishAt` distinguishes absent (`none`) from explicit `null`
(`some none`), because the source tests both `if (data.scheduledPublishAt)`
and `data.scheduledPublishAt !== undefined`. -/
structure UpdatePostRequest where
  title : Option String := none
  content : Option String := none
  excerpt : Option String := none
  author : Option String := none
  published : Option Bool := none
  tags : Option (List String) := none
  category : Option String := none
  status : Option Status := none
  scheduledPublishAt : Option (Option Int) := none
  series : Option String := none
  seriesOrder : Option Int := none
  relatedPosts : Option (List String) := none
deriving Repr

/-- Model of `createPost(data)`: the new record and the appended store.
The id is produced from the clock and a random suffix in the source and is
passed in as `newId`.  `data.category || 'Uncategorized'` treats an empty
category as absent. -/
def createPost (posts : List Post) (data : CreatePostRequest) (now : Int)
    (newId : String) : Post × List Post :=
  let shouldPublish : Bool :=
    data.status = some Status.published &&
      (match data.scheduledPublishAt with
       | none => true
       | some t => decide (t ≤ now))
  let baseSlug := generateSlug data.title
  let uniqueSlug := ensureUniqueSlug posts baseSlug none
  let post : Post :=
    { id := newId
      title := data.title
      slug := uniqueSlug
      content := data.content
      excerpt := data.excerpt
      author := data.author
      published := shouldPublish
      publishedAt := if shouldPublish then some (data.scheduledPublishAt.getD now) else none
      createdAt := now
      updatedAt := now
      tags := data.tags.getD []
      category :=
        match data.category with
        | some c => if c ≠ "" then c else "Uncategorized"
        | none => "Uncategorized"
      readingTime := calculateReadingTime data.content
      status := data.status.getD Status.draft
      scheduledPublishAt := data.scheduledPublishAt
      lastViewedAt := none
      viewCount := 0
      likeCount := 0
      commentCount := 0
      wordCount := calculateWordCount data.content
      series := data.series
      seriesOrder := data.seriesOrder
      relatedPosts := data.relatedPosts.getD [] }
  (post, posts ++ [post])

/-- The body of `updatePost` applied to the found record: status/publish
reconciliation, scheduled publishing, then the spread of `data` over the
existing record with the explicit overrides of the source.  `posts` is the
store snapshot used by the slug-uniqueness lookup. -/
def applyUpdate (posts : List Post) (existingPost : Post)
    (data : UpdatePostRequest) (now : Int) : Post :=
  let newStatus := data.status.getD existingPost.status
  let newPublished0 := data.published.getD existingPost.published
  let newPublished1 := if newStatus = Status.published then true else newPublished0
  let newPublishedAt1 :=
    if newStatus = Status.published then some (existingPost.publishedAt.getD now)
    else existingPost.publishedAt
  let sched : Option Int :=
    match data.scheduledPublishAt with
    | some (some t) => some t
    | _ => none
  let newPublished2 :=
    match sched with
    | some t => if t ≤ now ∧ newStatus = Status.published then true else newPublished1
    | none => newPublished1
  let newPublishedAt2 :=
    match sched with
    | some t => if t ≤ now ∧ newStatus = Status.published then some t else newPublishedAt1
    | none => newPublishedAt1
  { existingPost with
    title := data.title.getD existingPost.title
    content := data.content.getD existingPost.content
    excerpt := data.excerpt.getD existingPost.excerpt
    author := data.author.getD existingPost.author
    tags := data.tags.getD existingPost.tags
    category := data.category.getD existingPost.category
    updatedAt := now
    slug :=
      match data.title with
      | some t => if t ≠ "" then ensureUniqueSlug posts (generateSlug t) (some existingPost.id)
                  else existingPost.slug
      | none => existingPost.slug
    published := newPublished2
    publishedAt := newPublishedAt2
    status := newStatus
    scheduledPublishAt :=
      match data.scheduledPublishAt with
      | some v => v
      | none => existingPost.scheduledPublishAt
    readingTime :=
      match data.content with
      | some c => if c ≠ "" then calculateReadingTime c else existingPost.readingTime
      | none => existingPost.readingTime
    wordCount :=
      match data.content with
      | some c => if c ≠ "" then calculateWordCount c else existingPost.wordCount
      | none => existingPost.wordCount
    series :=
      match data.series with
      | some s => some s
      | none => existingPost.series
    seriesOrder :=
      match data.seriesOrder with
      | some o => some o
      | none => existingPost.seriesOrder
    relatedPosts := data.relatedPosts.getD existingPost.relatedPosts }

/-- Replace the first record with the given id by its update
(`findIndex` followed by `posts[index] = updatedPost`); `none` when the id
is absent. -/
def updateFirst (posts : List Post) (id : String) (data : UpdatePostRequest)
    (now : Int) : List Post → Option (Post × List Post)
  | [] => none
  | p :: ps =>
    if p.id = id then
      let updated := applyUpdate posts p data now
      some (updated, updated :: ps)
    else
      match updateFirst posts id data now ps with
      | some (q, qs) => some (q, p :: qs)
      | none => none

/-- Model of `updatePost(id, data)`: the updated record and the new store,
or `null` when the id does not exist. -/
def updatePost (posts : List Post) (id : String) (data : UpdatePostRequest)
    (now : Int) : Option (Post × List Post) :=
  updateFirst posts id data now posts

/-- The guard of `publishScheduledPosts`: status published, not yet
published, and a scheduled time that has passed. -/
def shouldPublishNow (now : Int) (post : Post) : Bool :=
  post.status = Status.published && !post.published &&
    (match post.scheduledPublishAt with
     | some t => decide (t ≤ now)
     | none => false)

/-- Model of `publishScheduledPosts()`: flip every due scheduled record to
published with `publishedAt = scheduledPublishAt`, returning the new store
and the number published (the `failed` list of the source is always empty:
its `try` block contains no fallible operation). -/
def publishScheduledPosts (posts : List Post) (now : Int) : List Post × Nat :=
  (posts.map (fun post =>
     if shouldPublishNow now post then
       { post with published := true
                   publishedAt := post.scheduledPublishAt
                   updatedAt := now }
     else post),
   (posts.filter (shouldPublishNow now)).length)

/-- The loop of `bulkUpdatePosts`: iterate over the snapshot taken at entry,
re-reading (threading) the store for each `updatePost` call.  Returns the
final store, the number updated, and the failed ids. -/
def bulkGo (ids : List String) (updates : UpdatePostRequest) (now : Int) :
    List Post → List Post → List Post × Nat × List String
  | store, [] => (store, 0, [])
  | store, p :: ps =>
    if ids.contains p.id then
      match updatePost store p.id updates now with
      | some (_, store') =>
        let r := bulkGo ids updates now store' ps
        (r.1, r.2.1 + 1, r.2.2)
      | none =>
        let r := bulkGo ids updates now store ps
        (r.1, r.2.1, p.id :: r.2.2)
    else bulkGo ids updates now store ps

/-- Model of `bulkUpdatePosts(ids, updates)`. -/
def bulkUpdatePosts (posts : List Post) (ids : List String)
    (updates : UpdatePostRequest) (now : Int) : List Post × Nat × List String :=
  bulkGo ids updates now posts posts

/-- Model of `bulkPublishPosts(ids, publish)`: a bulk update setting the
`published` flag and the matching status. -/
def bulkPublishPosts (posts : List Post) (ids : List String) (publish : Bool)
    (now : Int) : List Post × Nat × List String :=
  bulkUpdatePosts posts ids
    { published := some publish
      status := some (if publish then Status.published else Status.draft) } now

/-! ## Store lemmas -/

theorem condFilter_subset (b : Bool) (q : Post → Prop) [DecidablePred q]
    (l : List Post) : condFilter b q l ⊆ l := by
  unfold condFilter
  split
  · exact fun x hx => List.mem_of_mem_filter hx
  · exact fun x hx => hx

theorem mem_condFilter {b : Bool} {q : Post → Prop} [DecidablePred q]
    {l : List Post} {p : Post} (hp : p ∈ condFilter b q l) : p ∈ l :=
  condFilter_subset b q l hp

theorem mem_condFilter_prop {b : Bool} {q : Post → Prop} [DecidablePred q]
    {l : List Post} {p : Post} (hp : p ∈ condFilter b q l) (hb : b = true) :
    q p := by
  unfold condFilter at hp
  rw [hb, if_pos rfl] at hp
  exact of_decide_eq_true (List.mem_filter.mp hp).2

theorem applyFilters_subset (posts : List Post) (f : PostFilters) :
    applyFilters posts f ⊆ posts := by
  unfold applyFilters
  exact (condFilter_subset _ _ _).trans <| (condFilter_subset _ _ _).trans <|
    (condFilter_subset _ _ _).trans <| (condFilter_subset _ _ _).trans <|
    (condFilter_subset _ _ _).trans <| (condFilter_subset _ _ _).trans <|
    (condFilter_subset _ _ _).trans <| (condFilter_subset _ _ _).trans <|
    (condFilter_subset _ _ _).trans <| (condFilter_subset _ _ _).trans <|
    condFilter_subset _ _ _

/-- Records surviving the filter pass avoid every truthy exclusion list. -/
theorem mem_applyFilters_exclude {posts : List Post} {f : PostFilters}
    {p : Post} (hp : p ∈ applyFilters posts f)
    (h : f.excludeIds.getD [] ≠ []) :
    ¬ (f.excludeIds.getD []).contains p.id := by
  unfold applyFilters at hp
  have h1 := mem_condFilter hp
  exact mem_condFilter_prop h1 (by simpa using h)

theorem mem_sortPosts {l : List Post} {f : PostFilters} {p : Post} :
    p ∈ sortPosts l f ↔ p ∈ l := by
  unfold sortPosts
  exact mem_sSort

theorem mem_paginate {l : List Post} {f : PostFilters} {p : Post}
    (hp : p ∈ paginate l f) : p ∈ l := by
  unfold paginate at hp
  exact List.mem_of_mem_drop (List.mem_of_mem_take hp)

theorem paginate_length_le {l : List Post} {f : PostFilters} {n : Nat}
    (h : f.limit = some n) (hn : n ≠ 0) : (paginate l f).length ≤ n := by
  unfold paginate
  rw [h]
  simp [hn, List.length_take]

theorem mem_getPosts {posts : List Post} {f : PostFilters} {p : Post}
    (hp : p ∈ getPosts posts f) : p ∈ applyFilters posts f := by
  unfold getPosts at hp
  exact mem_sortPosts.mp (mem_paginate hp)

theorem getPosts_subset (posts : List Post) (f : PostFilters) :
    getPosts posts f ⊆ posts :=
  fun _ hp => applyFilters_subset posts f (mem_getPosts hp)

theorem getPosts_length_le {posts : List Post} {f : PostFilters} {n : Nat}
    (h : f.limit = some n) (hn : n ≠ 0) : (getPosts posts f).length ≤ n :=
  paginate_length_le h hn

/-- Records returned by `getPosts` with a non-empty `excludeIds` never carry
an excluded id. -/
theorem mem_getPosts_exclude {posts : List Post} {f : PostFilters} {p : Post}
    (hp : p ∈ getPosts posts f) (h : f.excludeIds.getD [] ≠ []) :
    ¬ (f.excludeIds.getD []).contains p.id :=
  mem_applyFilters_exclude (mem_getPosts hp) h

/-! ## Scoring lemmas -/

theorem scoreAll_mem {rx : String → Option (String → Nat)} {now : Int}
    {terms : List String} :
    ∀ {l : List Post} {scored : List (Post × ℚ)},
      scoreAll rx now terms l = some scored →
      ∀ x ∈ scored, x.1 ∈ l ∧ scorePost rx now terms x.1 = some x.2 := by
  intro l
  induction l with
  | nil =>
    intro scored h x hx
    unfold scoreAll at h
    cases h
    simp at hx
  | cons p ps ih =>
    intro scored h x hx
    unfold scoreAll at h
    cases hs : scorePost rx now terms p with
    | none => rw [hs] at h; cases h
    | some s =>
      rw [hs] at h
      cases hr : scoreAll rx now terms ps with
      | none => rw [hr] at h; cases h
      | some rest =>
        rw [hr] at h
        cases h
        rcases List.mem_cons.mp hx with rfl | hx'
        · exact ⟨List.mem_cons_self _ _, hs⟩
        · have := ih hr x hx'
          exact ⟨List.mem_cons_of_mem _ this.1, this.2⟩

theorem searchLe_trans : ∀ a b c : Post × ℚ,
    searchLe a b → searchLe b c → searchLe a c := by
  intro a b c hab hbc
  unfold searchLe at *
  rcases hab with h | ⟨h1, h2⟩ <;> rcases hbc with h' | ⟨h1', h2'⟩
  · exact Or.inl (h'.trans h)
  · exact Or.inl (h1' ▸ h)
  · exact Or.inl (by rw [h1]; exact h')
  · exact Or.inr ⟨h1.trans h1', h2'.trans h2⟩

theorem searchLe_total : ∀ a b : Post × ℚ, searchLe a b ∨ searchLe b a := by
  intro a b
  unfold searchLe
  rcases lt_trichotomy a.2 b.2 with h | h | h
  · exact Or.inr (Or.inl h)
  · rcases Int.le_total (effDate b.1) (effDate a.1) with h' | h'
    · exact Or.inl (Or.inr ⟨h, h'⟩)
    · exact Or.inr (Or.inr ⟨h.symm, h'⟩)
  · exact Or.inl (Or.inl h)

theorem relLe_trans : ∀ a b c : Post × ℚ, relLe a b → relLe b c → relLe a c := by
  intro a b c hab hbc
  exact le_trans hbc hab

theorem relLe_total : ∀ a b : Post × ℚ, relLe a b ∨ relLe b a := by
  intro a b
  exact (le_total b.2 a.2).imp id id

/-! ## Tokenizer lemmas -/

theorem lowerChar_toNat {c : Char} (h : 'A' ≤ c ∧ c ≤ 'Z') :
    (lowerChar c).toNat = c.toNat + 32 := by
  have h90 : c.toNat ≤ 90 := Char.le_def.mp h.2
  have hv : (c.toNat + 32).isValidChar := Or.inl (by omega)
  unfold lowerChar
  rw [if_pos h]
  unfold Char.ofNat
  rw [dif_pos hv]
  rfl

theorem isJsWs_false_of_ge {c : Char} (h : 33 ≤ c.toNat) : isJsWs c = false := by
  unfold isJsWs
  have h1 : c ≠ ' ' := fun e => absurd (e ▸ h) (by decide)
  have h2 : c ≠ '\t' := fun e => absurd (e ▸ h) (by decide)
  have h3 : c ≠ '\n' := fun e => absurd (e ▸ h) (by decide)
  have h4 : c ≠ '\x0b' := fun e => absurd (e ▸ h) (by decide)
  have h5 : c ≠ '\x0c' := fun e => absurd (e ▸ h) (by decide)
  have h6 : c ≠ '\r' := fun e => absurd (e ▸ h) (by decide)
  simp [h1, h2, h3, h4, h5, h6]

theorem isJsWs_lowerChar (c : Char) : isJsWs (lowerChar c) = isJsWs c := by
  by_cases h : 'A' ≤ c ∧ c ≤ 'Z'
  · have h65 : 65 ≤ c.toNat := Char.le_def.mp h.1
    have hl : (lowerChar c).toNat = c.toNat + 32 := lowerChar_toNat h
    rw [isJsWs_false_of_ge (by omega), isJsWs_false_of_ge (by omega)]
  · simp [lowerChar, h]

theorem jsLower_data (s : String) : (jsLower s).data = s.data.map lowerChar := rfl

theorem all_ws_jsLower (s : String) :
    (jsLower s).data.all isJsWs = s.data.all isJsWs := by
  rw [jsLower_data, List.all_map]
  congr 1
  funext c
  exact isJsWs_lowerChar c

theorem jsTrim_empty_iff (s : String) :
    jsTrim s = "" ↔ s.data.all isJsWs := by
  unfold jsTrim
  rw [show ("" : String) = ⟨[]⟩ from rfl]
  constructor
  · intro h
    have hrev : ((s.data.dropWhile isJsWs).reverse.dropWhile isJsWs).reverse = [] :=
      congrArg String.data h
    have hE : (s.data.dropWhile isJsWs).reverse.dropWhile isJsWs = [] := by
      simpa using hrev
    have hD : ∀ x ∈ s.data.dropWhile isJsWs, isJsWs x := by
      intro x hx
      exact List.dropWhile_eq_nil_iff.mp hE x (List.mem_reverse.mpr hx)
    rw [List.all_eq_true]
    intro x hx
    rw [← List.takeWhile_append_dropWhile isJsWs s.data] at hx
    rcases List.mem_append.mp hx with hx | hx
    · exact List.mem_takeWhile_imp hx
    · exact hD x hx
  · intro h
    have hD : s.data.dropWhile isJsWs = [] :=
      List.dropWhile_eq_nil_iff.mpr (fun x hx => List.all_eq_true.mp h x hx)
    simp [hD]

theorem splitWsKE_ne_nil (cs : List Char) : splitWsKE cs ≠ [] := by
  cases cs with
  | nil => simp [splitWsKE]
  | cons c cs =>
    unfold splitWsKE
    by_cases h : isJsWs c
    · simp [h]
    · simp only [h]
      cases hs : splitWsKE cs <;> simp

theorem all_ws_of_dropWhile {cs : List Char}
    (h : ∀ x ∈ cs.dropWhile isJsWs, isJsWs x) : ∀ x ∈ cs, isJsWs x := by
  intro x hx
  rw [← List.takeWhile_append_dropWhile isJsWs cs] at hx
  rcases List.mem_append.mp hx with hx | hx
  · exact List.mem_takeWhile_imp hx
  · exact h x hx

theorem splitWsKE_filter_nil :
    ∀ (n : Nat) (cs : List Char), cs.length ≤ n →
      (splitWsKE cs).filter (· ≠ []) = [] → cs.all isJsWs := by
  intro n
  induction n with
  | zero =>
    intro cs hlen _
    have : cs = [] := List.eq_nil_of_length_eq_zero (Nat.le_zero.mp hlen)
    simp [this]
  | succ n ih =>
    intro cs hlen h
    cases cs with
    | nil => simp
    | cons c cs' =>
      by_cases hc : isJsWs c
      · rw [splitWsKE, if_pos hc] at h
        have hdrop := (List.dropWhile_sublist (l := cs') isJsWs).length_le
        have hall : (cs'.dropWhile isJsWs).all isJsWs := by
          apply ih
          · simp at hlen; omega
          · simpa using h
        have : ∀ x ∈ cs', isJsWs x :=
          all_ws_of_dropWhile (List.all_eq_true.mp hall)
        simp [hc, List.all_eq_true]
        exact this
      · rw [splitWsKE, if_neg hc] at h
        cases hs : splitWsKE cs' with
        | nil => exact absurd hs (splitWsKE_ne_nil cs')
        | cons p ps =>
          rw [hs] at h
          simp at h

theorem jsTokenize_of_trim_empty {q : String} (h : jsTrim q = "") :
    jsTokenize q = [] := by
  have hws : q.data.all isJsWs := (jsTrim_empty_iff q).mp h
  have hlow : (jsLower q).data.all isJsWs := by rw [all_ws_jsLower]; exact hws
  have htl : jsTrim (jsLower q) = "" := (jsTrim_empty_iff _).mpr hlow
  unfold jsTokenize
  rw [htl]
  simp [splitWsKE, show ("" : String).data = [] from rfl]

theorem jsTokenize_nil_iff (q : String) :
    jsTokenize q = [] ↔ q.data.all isJsWs := by
  constructor
  · intro h
    unfold jsTokenize at h
    have hfil : ((splitWsKE (jsTrim (jsLower q)).data).filter (· ≠ [])) = [] := by
      simpa using h
    have htrim : (jsTrim (jsLower q)).data.all isJsWs :=
      splitWsKE_filter_nil _ _ le_rfl hfil
    have hE : (jsLower q).data.all isJsWs := by
      by_cases hne : jsTrim (jsLower q) = ""
      · exact (jsTrim_empty_iff _).mp hne
      · have hD : ∀ x ∈ ((jsLower q).data.dropWhile isJsWs).reverse.dropWhile isJsWs,
            isJsWs x := by
          intro x hx
          have hx' : x ∈ (jsTrim (jsLower q)).data := by
            unfold jsTrim
            simpa using hx
          exact List.all_eq_true.mp htrim x hx'
        have hE' : ∀ x ∈ (jsLower q).data.dropWhile isJsWs, isJsWs x := by
          intro x hx
          by_cases hxw : isJsWs x
          · exact hxw
          · exfalso
            have hdd : ((jsLower q).data.dropWhile isJsWs).reverse.dropWhile isJsWs = [] ∨
                x ∈ ((jsLower q).data.dropWhile isJsWs).reverse.dropWhile isJsWs := by
              by_cases hnil : ((jsLower q).data.dropWhile isJsWs).reverse.dropWhile isJsWs = []
              · exact Or.inl hnil
              · right
                rcases List.mem_reverse.mpr hx with hx''
                rw [← List.takeWhile_append_dropWhile isJsWs
                    ((jsLower q).data.dropWhile isJsWs).reverse] at hx''
                rcases List.mem_append.mp hx'' with hx3 | hx3
                · exact absurd (List.mem_takeWhile_imp hx3) hxw
                · exact hx3
            rcases hdd with hnil | hmem
            · apply hne
              unfold jsTrim
              simp [hnil]
            · exact hxw (hD x hmem)
        rw [List.all_eq_true]
        exact all_ws_of_dropWhile hE'
    rw [← all_ws_jsLower]
    exact hE
  · intro h
    exact jsTokenize_of_trim_empty ((jsTrim_empty_iff q).mpr h)

/-! ## `searchPosts` structure lemmas -/

theorem mem_applyLimit {f : PostFilters} {l : List Post} {x : Post}
    (hx : x ∈ applyLimit f l) : x ∈ l := by
  unfold applyLimit at hx
  cases h : f.limit with
  | none => rw [h] at hx; exact hx
  | some n =>
    rw [h] at hx
    dsimp only at hx
    by_cases hn : n ≠ 0
    · rw [if_pos hn] at hx; exact List.mem_of_mem_take hx
    · rw [if_neg hn] at hx; exact hx

theorem applyLimit_sublist (f : PostFilters) (l : List Post) :
    (applyLimit f l).Sublist l := by
  unfold applyLimit
  cases f.limit with
  | none => exact List.Sublist.refl l
  | some n =>
    dsimp only
    by_cases hn : n ≠ 0
    · rw [if_pos hn]; exact List.take_sublist n l
    · rw [if_neg hn]

theorem applyLimit_length_le {f : PostFilters} {n : Nat} (l : List Post)
    (h : f.limit = some n) (hn : n ≠ 0) : (applyLimit f l).length ≤ n := by
  unfold applyLimit
  rw [h]
  dsimp only
  rw [if_pos hn]
  exact List.length_take_le n l

theorem mem_rankScored {scored : List (Post × ℚ)} {x : Post}
    (hx : x ∈ rankScored scored) : ∃ s, (x, s) ∈ scored ∧ 0 < s := by
  unfold rankScored at hx
  rcases List.mem_map.mp hx with ⟨pair, hpair, rfl⟩
  have h1 : pair ∈ scored.filter (fun x => decide (0 < x.2)) := mem_sSort.mp hpair
  have h2 := List.mem_filter.mp h1
  exact ⟨pair.2, h2.1, of_decide_eq_true h2.2⟩

/-- In the non-empty-token case, a successful `searchPosts` run is the
limit-truncated ranking of the scored filtered page. -/
theorem searchPosts_ok {rx : String → Option (String → Nat)} {now : Int}
    {posts : List Post} {q : String} {f : PostFilters} {out : List Post}
    (ht : jsTokenize q ≠ []) (h : searchPosts rx now posts q f = some out) :
    ∃ scored,
      scoreAll rx now (jsTokenize q) (getPosts posts { f with search := none })
        = some scored ∧ out = applyLimit f (rankScored scored) := by
  have htrim : jsTrim q ≠ "" := fun he => ht (jsTokenize_of_trim_empty he)
  unfold searchPosts at h
  rw [if_neg htrim] at h
  simp only [if_neg ht] at h
  cases hs : scoreAll rx now (jsTokenize q)
      (getPosts posts { f with search := none }) with
  | none => rw [hs] at h; cases h
  | some scored =>
    rw [hs] at h
    exact ⟨scored, rfl, (Option.some.injEq _ _ ▸ h).symm⟩

theorem searchPosts_subset_page {rx : String → Option (String → Nat)}
    {now : Int} {posts : List Post} {q : String} {f : PostFilters}
    {out : List Post} (ht : jsTokenize q ≠ [])
    (h : searchPosts rx now posts q f = some out) :
    out ⊆ getPosts posts { f with search := none } := by
  rcases searchPosts_ok ht h with ⟨scored, hs, rfl⟩
  intro x hx
  rcases mem_rankScored (mem_applyLimit hx) with ⟨s, hmem, _⟩
  exact (scoreAll_mem hs (x, s) hmem).1

theorem searchPosts_length_le {rx : String → Option (String → Nat)}
    {now : Int} {posts : List Post} {q : String} {f : PostFilters}
    {out : List Post} {n : Nat} (h : searchPosts rx now posts q f = some out)
    (hl : f.limit = some n) (hn : n ≠ 0) : out.length ≤ n := by
  unfold searchPosts at h
  by_cases htrim : jsTrim q = ""
  · rw [if_pos htrim] at h
    cases h
    exact getPosts_length_le hl hn
  · rw [if_neg htrim] at h
    by_cases ht : jsTokenize q = []
    · simp only [if_pos ht] at h
      cases h
      exact getPosts_length_le hl hn
    · simp only [if_neg ht] at h
      cases hs : scoreAll rx now (jsTokenize q)
          (getPosts posts { f with search := none }) with
      | none => rw [hs] at h; cases h
      | some scored =>
        rw [hs] at h
        cases h
        exact applyLimit_length_le _ hl hn

/-- Members of a successful non-empty-token search output are sorted by
descending total score, ties by descending effective date. -/
theorem searchPosts_pairwise {rx : String → Option (String → Nat)}
    {now : Int} {posts : List Post} {q : String} {f : PostFilters}
    {out : List Post} (ht : jsTokenize q ≠ [])
    (h : searchPosts rx now posts q f = some out) :
    out.Pairwise (fun a b =>
      (scorePost rx now (jsTokenize q) b).getD 0
        < (scorePost rx now (jsTokenize q) a).getD 0 ∨
      ((scorePost rx now (jsTokenize q) a).getD 0
        = (scorePost rx now (jsTokenize q) b).getD 0 ∧
       effDate b ≤ effDate a)) := by
  rcases searchPosts_ok ht h with ⟨scored, hs, rfl⟩
  have hrank : (rankScored scored).Pairwise (fun a b =>
      (scorePost rx now (jsTokenize q) b).getD 0
        < (scorePost rx now (jsTokenize q) a).getD 0 ∨
      ((scorePost rx now (jsTokenize q) a).getD 0
        = (scorePost rx now (jsTokenize q) b).getD 0 ∧
       effDate b ≤ effDate a)) := by
    unfold rankScored
    rw [List.pairwise_map]
    refine List.Pairwise.imp_of_mem ?_
      (pairwise_sSort searchLe_trans searchLe_total _)
    intro a b ha hb hab
    have ha' := scoreAll_mem hs a
      (List.mem_of_mem_filter (mem_sSort.mp ha))
    have hb' := scoreAll_mem hs b
      (List.mem_of_mem_filter (mem_sSort.mp hb))
    rcases hab with hlt | ⟨heq, hdate⟩
    · left
      rw [ha'.2, hb'.2]
      simpa using hlt
    · right
      rw [ha'.2, hb'.2]
      simpa [heq] using hdate
  exact hrank.sublist (applyLimit_sublist f _)

/-- A record scoring `some 0` never appears in a successful non-empty-token
search output. -/
theorem searchPosts_zero_excluded {rx : String → Option (String → Nat)}
    {now : Int} {posts : List Post} {q : String} {f : PostFilters}
    {out : List Post} {p : Post} (ht : jsTokenize q ≠ [])
    (h : searchPosts rx now posts q f = some out)
    (hz : scorePost rx now (jsTokenize q) p = some 0) : p ∉ out := by
  rcases searchPosts_ok ht h with ⟨scored, hs, rfl⟩
  intro hmem
  rcases mem_rankScored (mem_applyLimit hmem) with ⟨s, hmem', hpos⟩
  have := (scoreAll_mem hs (p, s) hmem').2
  rw [hz] at this
  cases this
  exact lt_irrefl 0 hpos

/-! ## `getRelatedPosts` structure lemmas -/

theorem mem_getPosts_ne_of_exclude {posts : List Post} {postId : String}
    {p : Post} {f : PostFilters} (hf : f.excludeIds = some [postId])
    (hp : p ∈ getPosts posts f) : p.id ≠ postId := by
  have h := mem_getPosts_exclude hp (by rw [hf]; simp)
  rw [hf] at h
  simpa using h

theorem autoRelated_subset_pool {now : Int} {posts : List Post} {post : Post}
    {postId : String} {limit : Nat} {p : Post}
    (hp : p ∈ autoRelated now posts post postId limit) :
    p ∈ getPosts posts
      { published := some true, excludeIds := some [postId],
        limit := some (limit * 3) } := by
  unfold autoRelated at hp
  rcases List.mem_map.mp hp with ⟨pair, hpair, rfl⟩
  have h1 := mem_sSort.mp (List.mem_of_mem_take hpair)
  rcases List.mem_map.mp h1 with ⟨rp, hrp, rfl⟩
  exact hrp

theorem autoRelated_not_self {now : Int} {posts : List Post} {post : Post}
    {postId : String} {limit : Nat} {p : Post}
    (hp : p ∈ autoRelated now posts post postId limit) : p.id ≠ postId :=
  mem_getPosts_ne_of_exclude rfl (autoRelated_subset_pool hp)

theorem autoRelated_length_le (now : Int) (posts : List Post) (post : Post)
    (postId : String) (limit : Nat) :
    (autoRelated now posts post postId limit).length ≤ limit := by
  unfold autoRelated
  rw [List.length_map]
  exact List.length_take_le _ _

theorem getRelatedPosts_length_le (now : Int) (posts : List Post)
    (postId : String) (limit : Nat) :
    (getRelatedPosts now posts postId limit).length ≤ limit := by
  unfold getRelatedPosts
  cases h : getPostById posts postId with
  | none => simp
  | some post =>
    dsimp only
    by_cases h1 : post.relatedPosts ≠ []
    · rw [if_pos h1]
      by_cases h2 : (validateRelatedPosts posts post.relatedPosts).1 ≠ []
      · rw [if_pos h2]
        by_cases h3 : limit ≤
            (((getPosts posts
                { published := some true, excludeIds := some [postId] }).filter
              (fun p => (validateRelatedPosts posts post.relatedPosts).1.contains p.id)).take
              limit).length
        · rw [if_pos h3]
          exact List.length_take_le _ _
        · rw [if_neg h3]
          exact (autoRelated_length_le _ _ _ _ _).trans (Nat.sub_le _ _)
      · rw [if_neg h2]
        exact autoRelated_length_le _ _ _ _ _
    · rw [if_neg h1]
      exact autoRelated_length_le _ _ _ _ _

theorem getRelatedPosts_not_self (now : Int) (posts : List Post)
    (postId : String) (limit : Nat) :
    ∀ p ∈ getRelatedPosts now posts postId limit, p.id ≠ postId := by
  intro p hp
  unfold getRelatedPosts at hp
  cases h : getPostById posts postId with
  | none => rw [h] at hp; simp at hp
  | some post =>
    rw [h] at hp
    dsimp only at hp
    by_cases h1 : post.relatedPosts ≠ []
    · rw [if_pos h1] at hp
      by_cases h2 : (validateRelatedPosts posts post.relatedPosts).1 ≠ []
      · rw [if_pos h2] at hp
        by_cases h3 : limit ≤
            (((getPosts posts
                { published := some true, excludeIds := some [postId] }).filter
              (fun p => (validateRelatedPosts posts post.relatedPosts).1.contains p.id)).take
              limit).length
        · rw [if_pos h3] at hp
          have hmem := List.mem_of_mem_filter (List.mem_of_mem_take hp)
          exact mem_getPosts_ne_of_exclude rfl hmem
        · rw [if_neg h3] at hp
          exact autoRelated_not_self hp
      · rw [if_neg h2] at hp
        exact autoRelated_not_self hp
    · rw [if_neg h1] at hp
      exact autoRelated_not_self hp

theorem getRelatedPosts_missing (now : Int) (posts : List Post)
    (postId : String) (limit : Nat)
    (h : getPostById posts postId = none) :
    getRelatedPosts now posts postId limit = [] := by
  unfold getRelatedPosts
  rw [h]

/-! ## Publication invariant lemmas -/

/-- The data-model invariant claimed by the specification:
a published record carries a publication timestamp. -/
def PubInv (p : Post) : Prop := p.published = true → p.publishedAt ≠ none

theorem createPost_inv (posts : List Post) (data : CreatePostRequest)
    (now : Int) (newId : String) : PubInv (createPost posts data now newId).1 := by
  unfold PubInv createPost
  dsimp only
  intro hpub
  rw [if_pos hpub]
  simp

theorem applyUpdate_status (posts : List Post) (existing : Post)
    (data : UpdatePostRequest) (now : Int) :
    (applyUpdate posts existing data now).status = data.status.getD existing.status := rfl

theorem applyUpdate_inv {posts : List Post} {existing : Post}
    {data : UpdatePostRequest} {now : Int} (hex : PubInv existing)
    (hg : (applyUpdate posts existing data now).status = Status.published ∨
          data.published ≠ some true) :
    PubInv (applyUpdate posts existing data now) := by
  unfold PubInv
  intro hpub
  rw [applyUpdate_status] at hg
  unfold applyUpdate at hpub ⊢
  dsimp only at hpub ⊢
  by_cases hst : data.status.getD existing.status = Status.published
  · simp only [hst, if_pos rfl] at hpub ⊢
    rcases data.scheduledPublishAt with _ | ⟨_ | t⟩
    · simp
    · simp
    · dsimp only
      split <;> simp
  · simp only [if_neg hst] at hpub ⊢
    have hg' : data.published ≠ some true := by
      rcases hg with hg | hg
      · exact absurd hg hst
      · exact hg
    have htail : data.published.getD existing.published = true →
        existing.publishedAt ≠ none := by
      intro hpub'
      rcases hd : data.published with _ | b
      · rw [hd] at hpub'
        exact hex hpub'
      · rw [hd] at hpub'
        cases b
        · cases hpub'
        · exact absurd hd hg'
    revert hpub
    rcases data.scheduledPublishAt with _ | sv
    · exact htail
    · rcases sv with _ | t
      · exact htail
      · dsimp only
        simp only [if_neg (show ¬ (t ≤ now ∧
            data.status.getD existing.status = Status.published) from
            fun hc => hst hc.2)]
        exact htail

theorem updateFirst_some {posts : List Post} {id : String}
    {data : UpdatePostRequest} {now : Int} :
    ∀ {l : List Post} {p' : Post} {st' : List Post},
      updateFirst posts id data now l = some (p', st') →
      (∃ e ∈ l, p' = applyUpdate posts e data now) ∧
      (∀ q ∈ st', q = p' ∨ q ∈ l) := by
  intro l
  induction l with
  | nil => intro p' st' h; cases h
  | cons p ps ih =>
    intro p' st' h
    unfold updateFirst at h
    by_cases hid : p.id = id
    · rw [if_pos hid] at h
      dsimp only at h
      rcases Prod.mk.injEq _ _ _ _ ▸ Option.some.injEq _ _ ▸ h with h'
      have h1 : p' = applyUpdate posts p data now := by
        cases h; rfl
      have h2 : st' = applyUpdate posts p data now :: ps := by
        cases h; rfl
      refine ⟨⟨p, List.mem_cons_self _ _, h1⟩, ?_⟩
      intro q hq
      rw [h2] at hq
      rcases List.mem_cons.mp hq with rfl | hq'
      · exact Or.inl h1.symm
      · exact Or.inr (List.mem_cons_of_mem _ hq')
    · rw [if_neg hid] at h
      cases hrec : updateFirst posts id data now ps with
      | none => rw [hrec] at h; cases h
      | some r =>
        rw [hrec] at h
        rcases r with ⟨q0, qs⟩
        dsimp only at h
        have h1 : p' = q0 ∧ st' = p :: qs := by
          cases h; exact ⟨rfl, rfl⟩
        rcases h1 with ⟨rfl, rfl⟩
        have ihr := ih hrec
        refine ⟨?_, ?_⟩
        · rcases ihr.1 with ⟨e, he, hew⟩
          exact ⟨e, List.mem_cons_of_mem _ he, hew⟩
        · intro q hq
          rcases List.mem_cons.mp hq with rfl | hq'
          · exact Or.inr (List.mem_cons_self _ _)
          · rcases ihr.2 q hq' with h' | h'
            · exact Or.inl h'
            · exact Or.inr (List.mem_cons_of_mem _ h')

theorem updatePost_inv {posts : List Post} {id : String}
    {data : UpdatePostRequest} {now : Int} {p' : Post} {st' : List Post}
    (h : updatePost posts id data now = some (p', st'))
    (hall : ∀ q ∈ posts, PubInv q)
    (hg : p'.status = Status.published ∨ data.published ≠ some true) :
    PubInv p' ∧ ∀ q ∈ st', PubInv q := by
  unfold updatePost at h
  rcases updateFirst_some h with ⟨⟨e, he, rfl⟩, hst⟩
  have hp' : PubInv (applyUpdate posts e data now) :=
    applyUpdate_inv (hall e he) hg
  refine ⟨hp', ?_⟩
  intro q hq
  rcases hst q hq with rfl | hq'
  · exact hp'
  · exact hall q hq'

theorem shouldPublishNow_sched {now : Int} {p : Post}
    (h : shouldPublishNow now p = true) : ∃ t, p.scheduledPublishAt = some t := by
  unfold shouldPublishNow at h
  rcases hs : p.scheduledPublishAt with _ | t
  · rw [hs] at h
    simp at h
  · exact ⟨t, rfl⟩

theorem publishScheduledPosts_inv {posts : List Post} {now : Int}
    (hall : ∀ q ∈ posts, PubInv q) :
    ∀ q ∈ (publishScheduledPosts posts now).1, PubInv q := by
  intro q hq
  unfold publishScheduledPosts at hq
  dsimp only at hq
  rcases List.mem_map.mp hq with ⟨p, hp, rfl⟩
  by_cases hs : shouldPublishNow now p = true
  · rw [if_pos hs]
    rcases shouldPublishNow_sched hs with ⟨t, ht⟩
    intro _
    simp [ht]
  · rw [if_neg hs]
    exact hall p hp

theorem bulkGo_inv {ids : List String} {updates : UpdatePostRequest} {now : Int}
    (hguard : updates.status = some Status.published ∨
              updates.published ≠ some true) :
    ∀ (iter store : List Post), (∀ q ∈ store, PubInv q) →
      ∀ q ∈ (bulkGo ids updates now store iter).1, PubInv q := by
  intro iter
  induction iter with
  | nil => intro store hstore q hq; exact hstore q hq
  | cons p ps ih =>
    intro store hstore q hq
    unfold bulkGo at hq
    by_cases hid : ids.contains p.id
    · rw [if_pos hid] at hq
      cases hu : updatePost store p.id updates now with
      | none =>
        rw [hu] at hq
        dsimp only at hq
        exact ih store hstore q hq
      | some r =>
        rw [hu] at hq
        rcases r with ⟨p', st'⟩
        dsimp only at hq
        have hst' : ∀ x ∈ st', PubInv x := by
          have hg' : p'.status = Status.published ∨ updates.published ≠ some true := by
            rcases hguard with hg | hg
            · left
              unfold updatePost at hu
              rcases updateFirst_some hu with ⟨⟨e, _, rfl⟩, _⟩
              rw [applyUpdate_status, hg]
              rfl
            · exact Or.inr hg
          exact (updatePost_inv hu hstore hg').2
        exact ih st' hst' q hq
    · rw [if_neg hid] at hq
      exact ih store hstore q hq

theorem bulkPublishPosts_inv {posts : List Post} {ids : List String}
    {publish : Bool} {now : Int} (hall : ∀ q ∈ posts, PubInv q) :
    ∀ q ∈ (bulkPublishPosts posts ids publish now).1, PubInv q := by
  unfold bulkPublishPosts bulkUpdatePosts
  apply bulkGo_inv ?_ posts posts hall
  cases publish
  · exact Or.inr (by simp)
  · exact Or.inl rfl

/-! ## Per-signal scoring lemmas -/

theorem containsSub_of_isPrefixOf {hay needle : List Char}
    (h : needle.isPrefixOf hay = true) : containsSub hay needle = true := by
  cases hay with
  | nil =>
    cases needle with
    | nil => rfl
    | cons c cs => simp [List.isPrefixOf] at h
  | cons c cs =>
    unfold containsSub
    rw [Bool.or_eq_true]
    exact Or.inl h

theorem containsS_refl (s : String) : containsS s s = true := by
  unfold containsS
  apply containsSub_of_isPrefixOf
  induction s.data with
  | nil => rfl
  | cons c cs ih => simp [List.isPrefixOf, ih]

theorem titleScore_zero {term titleLower : String}
    (h : containsS titleLower term = false) : titleScore term titleLower = 0 := by
  unfold titleScore
  have h1 : titleLower ≠ term := by
    intro e
    rw [e, containsS_refl] at h
    cases h
  have h2 : startsWithS titleLower term = false := by
    cases hs : startsWithS titleLower term
    · rfl
    · exfalso
      have hcs : containsSub titleLower.data term.data = true :=
        containsSub_of_isPrefixOf hs
      unfold containsS at h
      rw [hcs] at h
      cases h
  simp [h1, h2, h]

theorem tagScore_zero {term : String} {tags : List String}
    (h : ∀ tag ∈ tags, containsS (jsLower tag) term = false) :
    tagScore term (tags.map jsLower) = 0 := by
  unfold tagScore
  have : (tags.map jsLower).filter
      (fun tag => tag = term || containsS tag term) = [] := by
    rw [List.filter_eq_nil_iff]
    intro tl htl
    rcases List.mem_map.mp htl with ⟨tag, htag, rfl⟩
    have hc := h tag htag
    have hne : jsLower tag ≠ term := by
      intro e
      rw [e] at hc
      rw [containsS_refl] at hc
      cases hc
    simp [hne, hc]
  rw [this]
  simp

theorem categoryScore_zero {term categoryLower : String}
    (h : containsS categoryLower term = false) :
    categoryScore term categoryLower = 0 := by
  unfold categoryScore
  have h1 : categoryLower ≠ term := by
    intro e
    rw [e, containsS_refl] at h
    cases h
  simp [h1, h]

theorem termScore_zero {rx : String → Option (String → Nat)} {term : String}
    {p : Post} (ht : containsS (jsLower p.title) term = false)
    (htag : ∀ tag ∈ p.tags, containsS (jsLower tag) term = false)
    (hc : containsS (jsLower p.category) term = false)
    (ha : containsS (jsLower p.author) term = false)
    (he : containsS (jsLower p.excerpt) term = false)
    (hco : containsS (jsLower p.content) term = false) :
    termScore rx term p = some 0 := by
  unfold termScore
  have h1 : excerptScore rx term (jsLower p.excerpt) = some 0 := by
    unfold excerptScore
    rw [he]
    simp
  have h2 : contentScore rx term (jsLower p.content) = some 0 := by
    unfold contentScore
    rw [hco]
    simp
  rw [h1, h2]
  rw [titleScore_zero ht, tagScore_zero htag, categoryScore_zero hc]
  unfold authorScore
  rw [ha]
  norm_num

theorem textScore_zero {rx : String → Option (String → Nat)} {p : Post}
    {terms : List String}
    (h : ∀ t ∈ terms,
      containsS (jsLower p.title) t = false ∧
      (∀ tag ∈ p.tags, containsS (jsLower tag) t = false) ∧
      containsS (jsLower p.category) t = false ∧
      containsS (jsLower p.author) t = false ∧
      containsS (jsLower p.excerpt) t = false ∧
      containsS (jsLower p.content) t = false) :
    textScore rx p terms = some 0 := by
  induction terms with
  | nil => rfl
  | cons t ts ih =>
    unfold textScore
    rcases h t (List.mem_cons_self _ _) with ⟨h1, h2, h3, h4, h5, h6⟩
    rw [termScore_zero h1 h2 h3 h4 h5 h6,
        ih (fun t' ht' => h t' (List.mem_cons_of_mem _ ht'))]
    norm_num

/-- A record in which no token occurs anywhere, whose effective date is at
least 30 days old and whose view count is at most 100, scores exactly 0. -/
theorem scorePost_zero {rx : String → Option (String → Nat)} {now : Int}
    {p : Post} {terms : List String}
    (h : ∀ t ∈ terms,
      containsS (jsLower p.title) t = false ∧
      (∀ tag ∈ p.tags, containsS (jsLower tag) t = false) ∧
      containsS (jsLower p.category) t = false ∧
      containsS (jsLower p.author) t = false ∧
      containsS (jsLower p.excerpt) t = false ∧
      containsS (jsLower p.content) t = false)
    (hrec : ¬ ((now - effDate p : Int) : ℚ) / 86400000 < 30)
    (hpop : ¬ 100 < p.viewCount) :
    scorePost rx now terms p = some 0 := by
  unfold scorePost
  rw [textScore_zero h]
  unfold recencyBonus popularityBonus
  rw [if_neg hrec, if_neg hpop]
  norm_num

theorem contentScore_isSome {term s : String} {cnt : String → Nat}
    (h : litRegex term = some cnt) :
    ∃ x, contentScore litRegex term s = some x := by
  unfold contentScore
  rw [h]
  split
  · exact ⟨_, rfl⟩
  · exact ⟨_, rfl⟩

/-- The excerpt signal: for a metacharacter-free non-empty token contained
in the lowercased excerpt, the token's score exceeds the score of the same
record with an empty excerpt by exactly `10 + 2 × occurrences`. -/
theorem termScore_excerpt_add {p : Post} {term : String}
    (hlit : term.data.all (fun c => ¬ regexMeta c) = true) (hne : term ≠ "")
    (hcont : containsS (jsLower p.excerpt) term = true) :
    ∃ base, termScore litRegex term { p with excerpt := "" } = some base ∧
      termScore litRegex term p =
        some (base + (10 +
          (countOccur term.data (jsLower p.excerpt).data : ℚ) * 2)) := by
  have hrx : litRegex term = some (fun s => countOccur term.data s.data) := by
    unfold litRegex
    rw [if_pos hlit]
  have hdata : term.data ≠ [] := by
    intro e
    apply hne
    cases term
    simp at e
    rw [e]
  have hempty : containsS (jsLower "") term = false := by
    unfold containsS jsLower containsSub
    simpa using hdata
  have he0 : excerptScore litRegex term (jsLower "") = some 0 := by
    unfold excerptScore
    rw [hempty]
    simp
  have he1 : excerptScore litRegex term (jsLower p.excerpt) =
      some (10 + (countOccur term.data (jsLower p.excerpt).data : ℚ) * 2) := by
    unfold excerptScore
    rw [hcont, hrx]
    simp
  rcases contentScore_isSome (s := jsLower p.content) hrx with ⟨x, hx⟩
  refine ⟨titleScore term (jsLower p.title)
      + tagScore term (p.tags.map jsLower)
      + categoryScore term (jsLower p.category)
      + authorScore term (jsLower p.author) + 0 + x, ?_, ?_⟩
  · show (match excerptScore litRegex term (jsLower ""),
        contentScore litRegex term (jsLower p.content) with
      | some e, some c =>
        some (titleScore term (jsLower p.title)
          + tagScore term (p.tags.map jsLower)
          + categoryScore term (jsLower p.category)
          + authorScore term (jsLower p.author) + e + c)
      | _, _ => none) = _
    rw [he0, hx]
  · show (match excerptScore litRegex term (jsLower p.excerpt),
        contentScore litRegex term (jsLower p.content) with
      | some e, some c =>
        some (titleScore term (jsLower p.title)
          + tagScore term (p.tags.map jsLower)
          + categoryScore term (jsLower p.category)
          + authorScore term (jsLower p.author) + e + c)
      | _, _ => none) = _
    rw [he1, hx]
    dsimp only
    congr 1
    ring

/-- `textScore` never reads the view count. -/
theorem textScore_viewCount (rx : String → Option (String → Nat)) (p : Post)
    (v : Nat) : ∀ ts, textScore rx { p with viewCount := v } ts =
      textScore rx { p with viewCount := 0 } ts := by
  intro ts
  induction ts with
  | nil => rfl
  | cons t ts ih =>
    unfold textScore
    rw [ih]
    have : termScore rx t { p with viewCount := v } =
        termScore rx t { p with viewCount := 0 } := rfl
    rw [this]

/-- Changing only the view count shifts the total score by exactly the
popularity bonus: nothing below 101 views, `min(viewCount / 100, 5)`
above. -/
theorem scorePost_viewCount (rx : String → Option (String → Nat)) (now : Int)
    (terms : List String) (p : Post) (v : Nat) :
    scorePost rx now terms { p with viewCount := v } =
      (scorePost rx now terms { p with viewCount := 0 }).map
        (fun s => s + (if 100 < v then min ((v : ℚ) / 100) 5 else 0)) := by
  unfold scorePost
  rw [textScore_viewCount rx p v terms]
  cases textScore rx { p with viewCount := 0 } terms with
  | none => rfl
  | some s =>
    dsimp only [Option.map]
    congr 1
    have hrec : recencyBonus now { p with viewCount := v } =
        recencyBonus now { p with viewCount := 0 } := rfl
    rw [hrec]
    have hpopv : popularityBonus { p with viewCount := v } =
        if 100 < v then min ((v : ℚ) / 100) 5 else 0 := rfl
    have hpop0 : popularityBonus { p with viewCount := 0 } = 0 := by
      unfold popularityBonus
      norm_num
    rw [hpopv, hpop0]
    ring

/-- The token-free short-circuit of `searchPosts`: both guards return the
plain `getPosts` result. -/
theorem searchPosts_empty_tokens {rx : String → Option (String → Nat)}
    {now : Int} {posts : List Post} {q : String} {f : PostFilters}
    (h : jsTokenize q = []) :
    searchPosts rx now posts q f = some (getPosts posts f) := by
  unfold searchPosts
  by_cases htrim : jsTrim q = ""
  · rw [if_pos htrim]
  · rw [if_neg htrim]
    dsimp only
    rw [if_pos h]

/-! ## Concrete scenario records

`scNow` is far later than every record date below, so no record is within
the 30-day recency window unless built to be. -/

def scNow : Int := 10000000000000

/-- A neutral record: published, old, unpopular, no tags, no series. -/
def basePost : Post :=
  { id := "base", title := "tt", slug := "tt", content := "", excerpt := "",
    author := "aa", published := true, publishedAt := some 1, createdAt := 1,
    updatedAt := 1, tags := [], category := "cc", readingTime := 1,
    status := Status.published, scheduledPublishAt := none,
    lastViewedAt := none, viewCount := 0, likeCount := 0, commentCount := 0,
    wordCount := 0, series := none, seriesOrder := none, relatedPosts := [] }

/-- Reference record with one curated relation, `["B"]`. -/
def postA : Post :=
  { basePost with
      id := "A"
      title := "alpha post"
      slug := "a"
      category := "alpha"
      author := "u1"
      createdAt := 3
      publishedAt := some 3
      relatedPosts := ["B"] }

/-- The curated related record: published, dissimilar to `postA`. -/
def postB : Post :=
  { basePost with
      id := "B"
      title := "bravo post"
      slug := "b"
      category := "beta"
      author := "u2"
      createdAt := 2
      publishedAt := some 2 }

/-- An uncurated record sharing `postA`'s category. -/
def postC : Post :=
  { basePost with
      id := "C"
      title := "charlie post"
      slug := "c"
      category := "alpha"
      author := "u3"
      createdAt := 1
      publishedAt := some 1 }

/-- Record whose excerpt contains a regex metacharacter. -/
def postParen : Post := { basePost with excerpt := "f(x)" }

/-- Record whose excerpt contains the token "beta" exactly once. -/
def postEx : Post := { basePost with excerpt := "beta x" }

/-- A record created at evaluation time: zero textual relevance for any
query avoiding its fields, but inside the 30-day recency window. -/
def postRecent : Post :=
  { basePost with
      id := "R"
      createdAt := scNow
      publishedAt := none }

/-- The newer of the two pagination-demo records; does not mention the
query token "target" anywhere. -/
def postNew : Post :=
  { basePost with
      id := "N"
      title := "misc entry"
      slug := "n"
      createdAt := 2
      publishedAt := some 2 }

/-- The older pagination-demo record, whose title is exactly the query
token "target". -/
def postOld : Post :=
  { basePost with
      id := "O"
      title := "target"
      slug := "o"
      createdAt := 1
      publishedAt := some 1 }

/-- An unpublished draft with no publication date. -/
def draftPost : Post :=
  { basePost with
      id := "D"
      published := false
      publishedAt := none
      status := Status.draft }

/-! ## The claims -/

/-- C10: for every reference id, collection and limit, `getRelatedPosts`
never returns the reference record itself (no result carries its id), never
returns more than `limit` records, and returns `[]` when the reference id
is absent from the collection. -/
theorem related_never_self_never_over_limit :
    ∀ (now : Int) (posts : List Post) (postId : String) (limit : Nat),
      (getRelatedPosts now posts postId limit).length ≤ limit ∧
      (∀ p ∈ getRelatedPosts now posts postId limit, p.id ≠ postId) ∧
      (getPostById posts postId = none →
        getRelatedPosts now posts postId limit = []) :=
  fun now posts postId limit =>
    ⟨getRelatedPosts_length_le now posts postId limit,
     getRelatedPosts_not_self now posts postId limit,
     fun h => getRelatedPosts_missing now posts postId limit h⟩

theorem related_never_self_never_over_limit_witness :
    (getRelatedPosts scNow [postA, postB, postC] "A" 2).length ≤ 2 ∧
    (∀ p ∈ getRelatedPosts scNow [postA, postB, postC] "A" 2, p.id ≠ "A") ∧
    (getPostById [postA, postB, postC] "Z" = none ∧
      getRelatedPosts scNow [postA, postB, postC] "Z" 2 = []) := by
  have hz : getPostById [postA, postB, postC] "Z" = none := by
    simp +decide [getPostById, postA, postB, postC, basePost]
  exact ⟨(related_never_self_never_over_limit scNow [postA, postB, postC] "A" 2).1,
    (related_never_self_never_over_limit scNow [postA, postB, postC] "A" 2).2.1,
    hz, (related_never_self_never_over_limit scNow [postA, postB, postC] "Z" 2).2.2 hz⟩

/-- C9: a query yielding zero tokens (equivalently: empty or
whitespace-only) makes `searchPosts` return exactly the store's
`getPosts(filters)` result, with no scoring pass and no zero-score
filtering. -/
theorem empty_query_short_circuit :
    ∀ (q : String), (jsTokenize q = [] ↔ q.data.all isJsWs) ∧
      ∀ (rx : String → Option (String → Nat)) (now : Int) (posts : List Post)
        (f : PostFilters), jsTokenize q = [] →
          searchPosts rx now posts q f = some (getPosts posts f) :=
  fun q => ⟨jsTokenize_nil_iff q,
    fun _ _ _ _ h => searchPosts_empty_tokens h⟩

theorem empty_query_short_circuit_witness :
    jsTokenize " \t " = [] ∧
    searchPosts litRegex scNow [basePost] " \t " {} =
      some (getPosts [basePost] {}) := by
  have h : jsTokenize " \t " = [] := by
    simp +decide [jsTokenize, jsTrim, jsLower, lowerChar, splitWsKE, isJsWs]
  exact ⟨h, (empty_query_short_circuit " \t ").2 litRegex scNow [basePost] {} h⟩

/-- C8: for every non-empty query (non-empty token list) and every store,
a successful `searchPosts` output is a subset of the candidate set (the
filtered page, hence also of the store) and is sorted by descending total
score with ties broken by descending effective date. -/
theorem search_output_sorted_subset :
    ∀ (rx : String → Option (String → Nat)) (now : Int) (posts : List Post)
      (q : String) (f : PostFilters) (out : List Post),
      jsTokenize q ≠ [] → searchPosts rx now posts q f = some out →
      out ⊆ getPosts posts { f with search := none } ∧ out ⊆ posts ∧
      out.Pairwise (fun a b =>
        (scorePost rx now (jsTokenize q) b).getD 0
          < (scorePost rx now (jsTokenize q) a).getD 0 ∨
        ((scorePost rx now (jsTokenize q) a).getD 0
          = (scorePost rx now (jsTokenize q) b).getD 0 ∧
         effDate b ≤ effDate a)) :=
  fun _ _ posts _ _ _ ht h =>
    ⟨searchPosts_subset_page ht h,
     (searchPosts_subset_page ht h).trans (getPosts_subset posts _),
     searchPosts_pairwise ht h⟩

theorem jsTokenize_target_ne : jsTokenize "target" ≠ [] := by
  simp +decide [jsTokenize, jsTrim, jsLower, lowerChar, splitWsKE, isJsWs]

theorem demo_page_eval :
    getPosts [postNew, postOld] { limit := some 1 } = [postNew] := by
  norm_num +decide [getPosts, applyFilters, condFilter, sortPosts, paginate,
    sSort, sIns, getPostsLe, sortKey, strTruthy, searchPred, seriesPred,
    postNew, postOld, basePost]

theorem demo_match_eval : containsS (jsLower postOld.title) "target" = true := by
  simp +decide [containsS, containsSub, jsLower, lowerChar, postOld, basePost]

theorem demo_search_eval :
    searchPosts litRegex scNow [postNew, postOld] "target"
      { limit := some 1 } = some [] := by
  norm_num +decide [searchPosts, jsTrim, jsTokenize, jsLower, lowerChar,
    splitWsKE, isJsWs, getPosts, applyFilters, condFilter, sortPosts,
    paginate, sSort, sIns, getPostsLe, sortKey, strTruthy, searchPred,
    seriesPred, scoreAll, scorePost, textScore, termScore, titleScore,
    tagScore, categoryScore, authorScore, excerptScore, contentScore,
    containsS, containsSub, startsWithS, litRegex, regexMeta, recencyBonus,
    popularityBonus, effDate, scNow, searchLe, rankScored, applyLimit,
    postNew, postOld, basePost]

/-- C7: with a non-empty query, the store pagination (inside `getPosts`,
sorted by the requested field, default creation date descending) is applied
before any scoring: the output can only draw from the pre-truncated page,
and is truncated to `limit` a second time afterwards.  The concrete half
shows a store where the only record matching the query is pushed off the
one-record first page, so the search returns nothing even though a match
exists and the limit is not reached. -/
theorem search_pagination_before_scoring :
    (∀ (rx : String → Option (String → Nat)) (now : Int) (posts : List Post)
      (q : String) (f : PostFilters) (out : List Post),
      jsTokenize q ≠ [] → searchPosts rx now posts q f = some out →
      out ⊆ getPosts posts { f with search := none } ∧
      (∀ n, f.limit = some n → n ≠ 0 → out.length ≤ n)) ∧
    getPosts [postNew, postOld] { limit := some 1 } = [postNew] ∧
    containsS (jsLower postOld.title) "target" = true ∧
    searchPosts litRegex scNow [postNew, postOld] "target"
      { limit := some 1 } = some [] :=
  ⟨fun _ _ _ _ _ _ ht h =>
    ⟨searchPosts_subset_page ht h,
     fun _ hn hn0 => searchPosts_length_le h hn hn0⟩,
   demo_page_eval, demo_match_eval, demo_search_eval⟩

theorem search_pagination_before_scoring_witness :
    jsTokenize "target" ≠ [] ∧
    searchPosts litRegex scNow [postNew, postOld] "target"
      { limit := some 1 } = some [] ∧
    ([] : List Post) ⊆ getPosts [postNew, postOld]
      { limit := some 1, search := none } ∧
    (∀ n, ({ limit := some 1 } : PostFilters).limit = some n → n ≠ 0 →
      ([] : List Post).length ≤ n) := by
  have happ := search_pagination_before_scoring.1 litRegex scNow
    [postNew, postOld] "target" { limit := some 1 } []
    jsTokenize_target_ne demo_search_eval
  exact ⟨jsTokenize_target_ne, demo_search_eval, happ.1, happ.2⟩

theorem search_output_sorted_subset_witness :
    jsTokenize "target" ≠ [] ∧
    searchPosts litRegex scNow [postNew, postOld] "target"
      { limit := some 1 } = some [] ∧
    (([] : List Post) ⊆ getPosts [postNew, postOld]
      { limit := some 1, search := none } ∧
     ([] : List Post) ⊆ [postNew, postOld] ∧
     ([] : List Post).Pairwise (fun a b =>
        (scorePost litRegex scNow (jsTokenize "target") b).getD 0
          < (scorePost litRegex scNow (jsTokenize "target") a).getD 0 ∨
        ((scorePost litRegex scNow (jsTokenize "target") a).getD 0
          = (scorePost litRegex scNow (jsTokenize "target") b).getD 0 ∧
         effDate b ≤ effDate a))) :=
  ⟨jsTokenize_target_ne, demo_search_eval,
   search_output_sorted_subset litRegex scNow [postNew, postOld]
    "target" { limit := some 1 } [] jsTokenize_target_ne demo_search_eval⟩

/-- C1: evaluation of the recommender on a store where postA's curated
relation "B" is valid and published, the limit is 2 and two published
non-self candidates exist.  The source computes the remaining count
(limit − curated) but then returns only the automatic-similarity slice:
the curated postB is dropped and the result is the single record
[postC] instead of the curated-then-automatic [postB, postC]. -/
theorem related_curated_dropped :
    validateRelatedPosts [postA, postB, postC] postA.relatedPosts
      = (["B"], []) ∧
    getPosts [postA, postB, postC]
      { published := some true, excludeIds := some ["A"] }
      = [postB, postC] ∧
    getRelatedPosts scNow [postA, postB, postC] "A" 2 = [postC] ∧
    postB ∉ getRelatedPosts scNow [postA, postB, postC] "A" 2 := by
  have h1 : validateRelatedPosts [postA, postB, postC] postA.relatedPosts
      = (["B"], []) := by
    simp +decide [validateRelatedPosts, postA, postB, postC, basePost]
  have h2 : getPosts [postA, postB, postC]
      { published := some true, excludeIds := some ["A"] }
      = [postB, postC] := by
    norm_num +decide [getPosts, applyFilters, condFilter, sortPosts,
      paginate, sSort, sIns, getPostsLe, sortKey, strTruthy, searchPred,
      seriesPred, postA, postB, postC, basePost]
  have h3 : getRelatedPosts scNow [postA, postB, postC] "A" 2 = [postC] := by
    norm_num +decide [getRelatedPosts, getPostById, validateRelatedPosts,
      autoRelated, relScore, effDateNum, getPosts, applyFilters, condFilter,
      sortPosts, paginate, sSort, sIns, getPostsLe, sortKey, strTruthy,
      searchPred, seriesPred, relLe, scNow, postA, postB, postC, basePost]
  refine ⟨h1, h2, h3, ?_⟩
  rw [h3]
  simp +decide [postB, postC, basePost]

/-- C2 counterexample: a record with 50 views receives no popularity bonus
at all — its total score equals that of the identical record with 0
views — while the claimed formula min(viewCount / 100, 5) demands a bonus
of 1/2 for it. -/
theorem popularity_bonus_cex :
    scorePost litRegex scNow ["zzz"] { basePost with viewCount := 50 }
      = some 0 ∧
    scorePost litRegex scNow ["zzz"] { basePost with viewCount := 0 }
      = some 0 ∧
    min ((50 : ℚ) / 100) 5 = 1 / 2 ∧ (1 : ℚ) / 2 ≠ 0 := by
  refine ⟨?_, ?_, by norm_num, by norm_num⟩ <;>
    norm_num +decide [scorePost, textScore, termScore, titleScore, tagScore,
      categoryScore, authorScore, excerptScore, contentScore, containsS,
      containsSub, startsWithS, litRegex, regexMeta, jsLower, lowerChar,
      recencyBonus, popularityBonus, effDate, scNow, basePost]

/-- C2 amended: the popularity bonus added once per scored record is
min(viewCount / 100, 5) only above the 100-view threshold and 0 at or
below it: changing only a record's view count shifts its total search
score by exactly that amount. -/
theorem popularity_bonus_amended :
    ∀ (rx : String → Option (String → Nat)) (now : Int)
      (terms : List String) (p : Post) (v : Nat),
      scorePost rx now terms { p with viewCount := v } =
        (scorePost rx now terms { p with viewCount := 0 }).map
          (fun s => s + (if 100 < v then min ((v : ℚ) / 100) 5 else 0)) :=
  scorePost_viewCount

/-- C3 counterexample: a single occurrence of the token "beta" in the
excerpt contributes 12 points (10 + 2×1), not the claimed
10 + 2×(1−1) = 10: the token's score for the record is 12 and drops to 0
when the excerpt is emptied, every other signal being 0. -/
theorem excerpt_occurrence_cex :
    countOccur "beta".data (jsLower postEx.excerpt).data = 1 ∧
    termScore litRegex "beta" postEx = some 12 ∧
    termScore litRegex "beta" { postEx with excerpt := "" } = some 0 ∧
    (12 : ℚ) ≠ 10 + 2 * (1 - 1) := by
  refine ⟨?_, ?_, ?_, by norm_num⟩ <;>
    norm_num +decide [termScore, titleScore, tagScore, categoryScore,
      authorScore, excerptScore, contentScore, containsS, containsSub,
      startsWithS, litRegex, regexMeta, countOccur, jsLower, lowerChar,
      postEx, basePost]

/-- C3 amended: for a token free of regex metacharacters that occurs in the
lowercased excerpt, the excerpt signal contributes exactly
10 + 2 × occurrence count (a single occurrence contributes 12): the
record's token score exceeds the empty-excerpt score by that amount. -/
theorem excerpt_occurrence_amended :
    ∀ (p : Post) (term : String),
      term.data.all (fun c => ¬ regexMeta c) = true → term ≠ "" →
      containsS (jsLower p.excerpt) term = true →
      ∃ base, termScore litRegex term { p with excerpt := "" } = some base ∧
        termScore litRegex term p =
          some (base + (10 +
            (countOccur term.data (jsLower p.excerpt).data : ℚ) * 2)) :=
  fun _ _ h1 h2 h3 => termScore_excerpt_add h1 h2 h3

theorem excerpt_occurrence_amended_witness :
    ("beta".data.all (fun c => ¬ regexMeta c) = true) ∧
    ("beta" : String) ≠ "" ∧
    containsS (jsLower postEx.excerpt) "beta" = true ∧
    (∃ base,
      termScore litRegex "beta" { postEx with excerpt := "" } = some base ∧
      termScore litRegex "beta" postEx =
        some (base + (10 +
          (countOccur "beta".data (jsLower postEx.excerpt).data : ℚ) * 2))) := by
  have h1 : "beta".data.all (fun c => ¬ regexMeta c) = true := by decide
  have h2 : ("beta" : String) ≠ "" := by decide
  have h3 : containsS (jsLower postEx.excerpt) "beta" = true := by
    simp +decide [containsS, containsSub, jsLower, lowerChar, postEx, basePost]
  exact ⟨h1, h2, h3, excerpt_occurrence_amended postEx "beta" h1 h2 h3⟩

/-- C4: evaluation of the search at a query containing a regular-expression
metacharacter: for the query "(" against a store whose record's excerpt
contains "(", the `new RegExp` construction throws a SyntaxError (modelled
as `none`), so `searchPosts` fails instead of returning a list. -/
theorem search_throws_on_metachar_query :
    searchPosts litRegex scNow [postParen] "(" {} = none := by
  norm_num +decide [searchPosts, jsTrim, jsTokenize, jsLower, lowerChar,
    splitWsKE, isJsWs, getPosts, applyFilters, condFilter, sortPosts,
    paginate, sSort, sIns, getPostsLe, sortKey, strTruthy, searchPred,
    seriesPred, scoreAll, scorePost, textScore, termScore, titleScore,
    tagScore, categoryScore, authorScore, excerptScore, contentScore,
    containsS, containsSub, startsWithS, litRegex, regexMeta, recencyBonus,
    popularityBonus, effDate, scNow, searchLe, rankScored, applyLimit,
    postParen, basePost]

/-- C5 counterexample: a record created within the last 30 days in which no
query token occurs anywhere scores 5 (the recency bonus is added even with
zero textual relevance), and the search returns it instead of excluding
it. -/
theorem zero_relevance_cex :
    scorePost litRegex scNow ["zzz"] postRecent = some 5 ∧
    searchPosts litRegex scNow [postRecent] "zzz" {} = some [postRecent] := by
  constructor <;>
    norm_num +decide [searchPosts, jsTrim, jsTokenize, jsLower, lowerChar,
      splitWsKE, isJsWs, getPosts, applyFilters, condFilter, sortPosts,
      paginate, sSort, sIns, getPostsLe, sortKey, strTruthy, searchPred,
      seriesPred, scoreAll, scorePost, textScore, termScore, titleScore,
      tagScore, categoryScore, authorScore, excerptScore, contentScore,
      containsS, containsSub, startsWithS, litRegex, regexMeta, recencyBonus,
      popularityBonus, effDate, scNow, searchLe, rankScored, applyLimit,
      postRecent, basePost]

/-- C5 amended: with a non-empty query, a candidate record in which no
token occurs in the title, tags, category, author, excerpt or content has
total score 0 and is excluded from any successful output — provided it
earns no recency bonus (effective date at least 30 days before `now`) and
no popularity bonus (at most 100 views); a recent or popular
zero-relevance record receives a positive bonus-only score and can be
shown. -/
theorem zero_relevance_amended :
    ∀ (rx : String → Option (String → Nat)) (now : Int) (posts : List Post)
      (q : String) (f : PostFilters) (out : List Post) (p : Post),
      jsTokenize q ≠ [] →
      (∀ t ∈ jsTokenize q,
        containsS (jsLower p.title) t = false ∧
        (∀ tag ∈ p.tags, containsS (jsLower tag) t = false) ∧
        containsS (jsLower p.category) t = false ∧
        containsS (jsLower p.author) t = false ∧
        containsS (jsLower p.excerpt) t = false ∧
        containsS (jsLower p.content) t = false) →
      ¬ ((now - effDate p : Int) : ℚ) / 86400000 < 30 →
      ¬ 100 < p.viewCount →
      searchPosts rx now posts q f = some out →
      scorePost rx now (jsTokenize q) p = some 0 ∧ p ∉ out :=
  fun _ _ _ _ _ _ _ ht h hrec hpop hok =>
    ⟨scorePost_zero h hrec hpop,
     searchPosts_zero_excluded ht hok (scorePost_zero h hrec hpop)⟩

theorem zero_relevance_amended_witness :
    jsTokenize "zzz" ≠ [] ∧
    (∀ t ∈ jsTokenize "zzz",
      containsS (jsLower basePost.title) t = false ∧
      (∀ tag ∈ basePost.tags, containsS (jsLower tag) t = false) ∧
      containsS (jsLower basePost.category) t = false ∧
      containsS (jsLower basePost.author) t = false ∧
      containsS (jsLower basePost.excerpt) t = false ∧
      containsS (jsLower basePost.content) t = false) ∧
    ¬ ((scNow - effDate basePost : Int) : ℚ) / 86400000 < 30 ∧
    ¬ 100 < basePost.viewCount ∧
    searchPosts litRegex scNow [basePost] "zzz" {} = some [] ∧
    (scorePost litRegex scNow (jsTokenize "zzz") basePost = some 0 ∧
     basePost ∉ ([] : List Post)) := by
  have htok : jsTokenize "zzz" = ["zzz"] := by
    simp +decide [jsTokenize, jsTrim, jsLower, lowerChar, splitWsKE, isJsWs]
  have ht : jsTokenize "zzz" ≠ [] := by rw [htok]; simp
  have hocc : ∀ t ∈ jsTokenize "zzz",
      containsS (jsLower basePost.title) t = false ∧
      (∀ tag ∈ basePost.tags, containsS (jsLower tag) t = false) ∧
      containsS (jsLower basePost.category) t = false ∧
      containsS (jsLower basePost.author) t = false ∧
      containsS (jsLower basePost.excerpt) t = false ∧
      containsS (jsLower basePost.content) t = false := by
    rw [htok]
    intro t htl
    rw [List.mem_singleton] at htl
    subst htl
    refine ⟨?_, ?_, ?_, ?_, ?_, ?_⟩ <;>
      simp +decide [containsS, containsSub, jsLower, lowerChar, basePost]
  have hrec : ¬ ((scNow - effDate basePost : Int) : ℚ) / 86400000 < 30 := by
    norm_num [effDate, basePost, scNow]
  have hpop : ¬ 100 < basePost.viewCount := by
    simp +decide [basePost]
  have hok : searchPosts litRegex scNow [basePost] "zzz" {} = some [] := by
    norm_num +decide [searchPosts, jsTrim, jsTokenize, jsLower, lowerChar,
      splitWsKE, isJsWs, getPosts, applyFilters, condFilter, sortPosts,
      paginate, sSort, sIns, getPostsLe, sortKey, strTruthy, searchPred,
      seriesPred, scoreAll, scorePost, textScore, termScore, titleScore,
      tagScore, categoryScore, authorScore, excerptScore, contentScore,
      containsS, containsSub, startsWithS, litRegex, regexMeta, recencyBonus,
      popularityBonus, effDate, scNow, searchLe, rankScored, applyLimit,
      basePost]
  exact ⟨ht, hocc, hrec, hpop, hok,
    zero_relevance_amended litRegex scNow [basePost] "zzz" {} [] basePost
      ht hocc hrec hpop hok⟩

/-- C6 counterexample: updating a never-published draft with
published := true and no status change yields a record with
published = true and publishedAt still null — `updatePost` does not
preserve the claimed invariant. -/
theorem update_publish_flag_cex :
    (updatePost [draftPost] "D" { published := some true } scNow).map
      (fun r => (r.1.published, r.1.publishedAt)) = some (true, none) := by
  norm_num +decide [updatePost, updateFirst, applyUpdate, draftPost,
    basePost, scNow]

/-- C6 amended: createPost always creates records satisfying
published → publishedAt ≠ null; publishScheduledPosts and
bulkPublishPosts preserve it store-wide; and updatePost preserves it
except in the one uncovered case — a request that forces
published := true while the resulting status is not 'published', applied
to a record without a publication date. -/
theorem publication_invariant_amended :
    (∀ (posts : List Post) (data : CreatePostRequest) (now : Int)
      (newId : String), PubInv (createPost posts data now newId).1) ∧
    (∀ (posts : List Post) (now : Int), (∀ q ∈ posts, PubInv q) →
      ∀ q ∈ (publishScheduledPosts posts now).1, PubInv q) ∧
    (∀ (posts : List Post) (ids : List String) (publish : Bool) (now : Int),
      (∀ q ∈ posts, PubInv q) →
      ∀ q ∈ (bulkPublishPosts posts ids publish now).1, PubInv q) ∧
    (∀ (posts : List Post) (id : String) (data : UpdatePostRequest)
      (now : Int) (p' : Post) (st' : List Post),
      updatePost posts id data now = some (p', st') →
      (∀ q ∈ posts, PubInv q) →
      (p'.status = Status.published ∨ data.published ≠ some true) →
      PubInv p' ∧ ∀ q ∈ st', PubInv q) :=
  ⟨createPost_inv,
   fun _ _ hall => publishScheduledPosts_inv hall,
   fun _ _ _ _ hall => bulkPublishPosts_inv hall,
   fun _ _ _ _ _ _ h hall hg => updatePost_inv h hall hg⟩

theorem publication_invariant_amended_witness :
    (∀ q ∈ [basePost], PubInv q) ∧
    (∀ q ∈ (bulkPublishPosts [basePost] ["base"] true scNow).1, PubInv q) := by
  have hall : ∀ q ∈ [basePost], PubInv q := by
    intro q hq
    rw [List.mem_singleton] at hq
    subst hq
    intro _
    simp [basePost]
  exact ⟨hall,
    publication_invariant_amended.2.2.1 [basePost] ["base"] true scNow hall⟩

end Blog
